import Mathlib

/-!
Verification development for the `context7-mcp-server` repository.

The Python sources under `src/context7_mcp/` are shallowly embedded below:
  * `tools/library_resolver.py`  — library registry and name resolution,
  * `tools/documentation_fetcher.py` — source orchestration, content
    combination, truncation and quality scoring,
  * `core/cache.py` — the in-process TTL cache backend and cache keys.

Python `dict`s are modelled as association lists in insertion order
(overwriting a key keeps its position, as CPython does); `datetime` values
are modelled as natural numbers (seconds); floats whose exact values the
claims inspect (confidence, popularity, quality scores) are modelled as
rationals; external collaborators (the network, the fuzzy scorer of the
`fuzzywuzzy` package) are either parameters of the embedded functions or
given an explicit executable model.
-/

set_option maxRecDepth 200000

namespace Context7

/-! ### Python string primitives -/

/-- ASCII lowering of one character, as `str.lower` acts on the ASCII range
(all strings appearing in the embedded code are ASCII). -/
def charLower (c : Char) : Char :=
  if 65 ≤ c.toNat ∧ c.toNat ≤ 90 then Char.ofNat (c.toNat + 32) else c

/-- `str.lower` on an ASCII string. -/
def pyLower (s : String) : String := ⟨s.data.map charLower⟩

/-- The characters treated as whitespace by `str.strip` and by `\s` in the
`re` module (ASCII range). -/
def isPySpace (c : Char) : Bool :=
  c.toNat = 32 ∨ c.toNat = 9 ∨ c.toNat = 10 ∨ c.toNat = 13 ∨ c.toNat = 11 ∨ c.toNat = 12

/-- Strip leading and trailing whitespace from a character list. -/
def stripChars (l : List Char) : List Char :=
  ((l.dropWhile isPySpace).reverse.dropWhile isPySpace).reverse

/-- `str.strip`. -/
def pyStrip (s : String) : String := ⟨stripChars s.data⟩

/-- A `\w` character of the `re` module: alphanumeric or underscore
(ASCII range). -/
def isWordChar (c : Char) : Bool := c.isAlphanum || c = '_'

/-- `fuzzywuzzy.utils.full_process`: replace each non-`\w` character by a
space, lower-case, then strip.  `process.extract` applies it to the query
and to every choice before scoring. -/
def fullProcess (s : String) : String :=
  pyStrip (pyLower ⟨s.data.map (fun c => if isWordChar c then c else ' ')⟩)

/-- One row-extension step of the longest-common-subsequence table.
`prev` holds the previous row at positions `1..n`, `diag` the previous row
at the current position minus one, `cur` the value just computed on the
current row. -/
def lcsRow (x : Char) : List Char → List Nat → Nat → Nat → List Nat
  | [], _, _, _ => []
  | _ :: _, [], _, _ => []
  | y :: ys, p :: ps, diag, cur =>
      let v := if x = y then diag + 1 else max cur p
      v :: lcsRow x ys ps p v

/-- Length of the longest common subsequence of two character lists. -/
def lcs (xs ys : List Char) : Nat :=
  ((xs.foldl (fun row x => lcsRow x ys row 0 0) (ys.map fun _ => 0)).getLastD 0)

/-- Model of `fuzzywuzzy.fuzz.ratio` as backed by `python-Levenshtein`:
the similarity `2·LCS(s1,s2)/(|s1|+|s2|)` scaled to `0..100` and rounded
half-to-even (Python's `round`).  Equal strings score 100 and a single
empty string scores 0, as the `check_for_equivalence` /
`check_empty_string` decorators also guarantee. -/
def fuzzRatio (s1 s2 : String) : Nat :=
  let l1 := s1.data.length
  let l2 := s2.data.length
  if l1 + l2 = 0 then 100
  else
    let num := 200 * lcs s1.data s2.data
    let den := l1 + l2
    let q := num / den
    let r := num % den
    if den < 2 * r then q + 1
    else if 2 * r < den then q
    else q + q % 2

/-- Scanner for the token pattern of `documentation_fetcher.py`
(`\b\w+\b|[^\w\s]`): `cur` holds the reversed word run in progress, which
is flushed at every non-word character and at the end. -/
def tokenizeAux (cur : List Char) : List Char → List (List Char)
  | [] => if cur.isEmpty then [] else [cur.reverse]
  | c :: cs =>
      if isWordChar c then tokenizeAux (c :: cur) cs
      else
        let rest := if isPySpace c then tokenizeAux [] cs else [c] :: tokenizeAux [] cs
        if cur.isEmpty then rest else cur.reverse :: rest

/-- `re.findall(r'\b\w+\b|[^\w\s]', ...)`: maximal runs of word
characters, and every non-word non-space character as a token of its
own. -/
def tokenize (l : List Char) : List (List Char) := tokenizeAux [] l

/-- `DocumentationFetcher._count_tokens`: the number of regex tokens. -/
def count_tokens (s : String) : Nat := (tokenize s.data).length

/-- `' '.join(tokens)` on character lists. -/
def spaceJoin (ts : List (List Char)) : List Char := List.intercalate [' '] ts

/-- Python's `str.rfind`: index of the last occurrence of `c`, `-1` if
absent. -/
def rfindIdx (c : Char) (l : List Char) : Int :=
  match l.reverse.findIdx? (· = c) with
  | none => -1
  | some i => (l.length : Int) - 1 - (i : Int)

/-- Whether `pat` is an initial segment of `l`. -/
def isStartOf : List Char → List Char → Bool
  | [], _ => true
  | _ :: _, [] => false
  | p :: ps, x :: xs => p = x && isStartOf ps xs

/-- Python's `pat in s` substring test, on character lists. -/
def hasSub (pat : List Char) : List Char → Bool
  | [] => isStartOf pat []
  | c :: cs => isStartOf pat (c :: cs) || hasSub pat cs

/-! ### Data model (`core/models.py`) -/

/-- `SourceType`. -/
inductive SourceType where
  | github
  | official_docs
  | api_reference
  | npm_registry
  | pypi_registry
  | community
deriving DecidableEq, Repr

/-- `DocumentationSource`. -/
structure DocumentationSource where
  url : String
  type : SourceType
  priority : Nat
  cache_ttl : Nat := 3600
  enabled : Bool := true
deriving DecidableEq, Repr

/-- `LibraryInfo` (the fields the embedded code reads). -/
structure LibraryInfo where
  id : String
  name : String
  description : String := ""
  documentation_sources : List DocumentationSource := []
  repository_url : Option String := none
  package_manager : Option String := none
  tags : List String := []
  popularity_score : ℚ := 0
deriving DecidableEq, Repr

/-- `DocumentationContent`: a fetched fragment.  Note that every fragment
constructor in `documentation_fetcher.py` omits `quality_score`, so a
fetched fragment always carries the model default `0.0`. -/
structure DocumentationContent where
  library_id : String
  content : String
  source_url : String
  source_type : SourceType
  topic : Option String := none
  token_count : Nat
  quality_score : ℚ := 0
deriving DecidableEq, Repr

/-- `LibraryResolutionResult`. -/
structure LibraryResolutionResult where
  query : String
  matches' : List LibraryInfo
  exact_match : Option LibraryInfo
  confidence_score : ℚ
deriving DecidableEq, Repr

/-! ### Python `dict` model (insertion-ordered association list) -/

/-- `d[k] = v`: overwrite in place if the key exists, else append. -/
def dictInsert {β : Type} (k : String) (v : β) : List (String × β) → List (String × β)
  | [] => [(k, v)]
  | (k', v') :: rest =>
      if k' = k then (k, v) :: rest else (k', v') :: dictInsert k v rest

/-- `d.get(k)` / `k in d` lookup. -/
def dictLookup {β : Type} (k : String) : List (String × β) → Option β
  | [] => none
  | (k', v) :: rest => if k' = k then some v else dictLookup k rest

/-- `del d[k]` (no-op when absent, matching `dict.pop(k, None)`). -/
def dictRemove {β : Type} (k : String) : List (String × β) → List (String × β)
  | [] => []
  | (k', v) :: rest => if k' = k then rest else (k', v) :: dictRemove k rest

/-- `d.values()` in key insertion order. -/
def dictValues {β : Type} (d : List (String × β)) : List β := d.map Prod.snd

/-- `d.keys()` in key insertion order. -/
def dictKeys {β : Type} (d : List (String × β)) : List String := d.map Prod.fst

/-! ### Library resolver (`tools/library_resolver.py`) -/

/-- The registry: a dict from canonical ids *and* lower-cased display
names to library records. -/
abbrev Registry := List (String × LibraryInfo)

/-- `_initialize_builtin_libraries`, entry 1. -/
def nextjsLib : LibraryInfo :=
  { id := "/vercel/next.js", name := "Next.js",
      description := "The React Framework for Production",
      documentation_sources :=
        [ { url := "https://nextjs.org/docs", type := .official_docs, priority := 1 },
          { url := "https://github.com/vercel/next.js", type := .github, priority := 2 } ],
      repository_url := some "https://github.com/vercel/next.js",
      package_manager := some "npm",
      tags := ["react", "framework", "ssr", "static-site"],
      popularity_score := mkRat 95 100 }

/-- `_initialize_builtin_libraries`, entry 2. -/
def supabaseLib : LibraryInfo :=
  { id := "/supabase/supabase", name := "Supabase",
      description := "The Open Source Firebase Alternative",
      documentation_sources :=
        [ { url := "https://supabase.com/docs", type := .official_docs, priority := 1 },
          { url := "https://github.com/supabase/supabase", type := .github, priority := 2 } ],
      repository_url := some "https://github.com/supabase/supabase",
      package_manager := some "npm",
      tags := ["database", "auth", "backend", "postgresql"],
      popularity_score := mkRat 90 100 }

/-- `_initialize_builtin_libraries`, entry 3. -/
def reactLib : LibraryInfo :=
  { id := "/facebook/react", name := "React",
      description := "A JavaScript library for building user interfaces",
      documentation_sources :=
        [ { url := "https://react.dev", type := .official_docs, priority := 1 },
          { url := "https://github.com/facebook/react", type := .github, priority := 2 } ],
      repository_url := some "https://github.com/facebook/react",
      package_manager := some "npm",
      tags := ["ui", "library", "javascript", "frontend"],
      popularity_score := mkRat 98 100 }

/-- `_initialize_builtin_libraries`, entry 4. -/
def tailwindLib : LibraryInfo :=
  { id := "/tailwindlabs/tailwindcss", name := "Tailwind CSS",
      description := "A utility-first CSS framework",
      documentation_sources :=
        [ { url := "https://tailwindcss.com/docs", type := .official_docs, priority := 1 },
          { url := "https://github.com/tailwindlabs/tailwindcss", type := .github, priority := 2 } ],
      repository_url := some "https://github.com/tailwindlabs/tailwindcss",
      package_manager := some "npm",
      tags := ["css", "framework", "utility", "styling"],
      popularity_score := mkRat 92 100 }

/-- `_initialize_builtin_libraries`, entry 5. -/
def fastapiLib : LibraryInfo :=
  { id := "/fastapi/fastapi", name := "FastAPI",
      description := "FastAPI framework, high performance, easy to learn",
      documentation_sources :=
        [ { url := "https://fastapi.tiangolo.com", type := .official_docs, priority := 1 },
          { url := "https://github.com/tiangolo/fastapi", type := .github, priority := 2 } ],
      repository_url := some "https://github.com/tiangolo/fastapi",
      package_manager := some "pypi",
      tags := ["python", "api", "framework", "async"],
      popularity_score := mkRat 94 100 }

/-- `_initialize_builtin_libraries`, entry 6. -/
def typescriptLib : LibraryInfo :=
  { id := "/microsoft/typescript", name := "TypeScript",
      description := "TypeScript is a superset of JavaScript",
      documentation_sources :=
        [ { url := "https://www.typescriptlang.org/docs", type := .official_docs, priority := 1 },
          { url := "https://github.com/microsoft/TypeScript", type := .github, priority := 2 } ],
      repository_url := some "https://github.com/microsoft/TypeScript",
      package_manager := some "npm",
      tags := ["typescript", "javascript", "language", "types"],
      popularity_score := mkRat 96 100 }

/-- The `_initialize_builtin_libraries` seed list, in source order. -/
def builtinLibraries : List LibraryInfo :=
  [nextjsLib, supabaseLib, reactLib, tailwindLib, fastapiLib, typescriptLib]

/-- Registering one library: `self._registry[library.id] = library` then
`self._registry[library.name.lower()] = library`. -/
def registerLibrary (reg : Registry) (lib : LibraryInfo) : Registry :=
  dictInsert (pyLower lib.name) lib (dictInsert lib.id lib reg)

/-- The registry right after `_initialize_builtin_libraries`. -/
def builtinRegistry : Registry := builtinLibraries.foldl registerLibrary []

/-- The exact-match scan condition of `resolve_library` (lines 178-183):
`library.name.lower() == query or library.id.lower() == query or
library.id.lower().endswith("/" + query)`. -/
def matchCond (nq : String) (lib : LibraryInfo) : Bool :=
  pyLower lib.name = nq || pyLower lib.id = nq
    || ("/" ++ nq).data.isSuffixOf (pyLower lib.id).data

/-- `fuzzywuzzy.process.extract(query, choices, limit=10, scorer=ratioFn)`:
score every choice (after `full_process`ing query and choice), stable-sort
by score descending (`heapq.nlargest` is stable), keep the top 10. -/
def processExtract (ratioFn : String → String → Nat) (q : String)
    (choices : List String) : List (String × Nat) :=
  ((choices.map fun c => (c, ratioFn (fullProcess q) (fullProcess c))).insertionSort
      fun a b => b.2 ≤ a.2).take 10

/-- The first loop over `name_matches` (lines 198-206): for each
high-confidence name match, append the first registry value with that
display name whose id is unseen. -/
def nameLoop (values : List LibraryInfo) :
    List (String × Nat) → List LibraryInfo × List String → List LibraryInfo × List String
  | [], st => st
  | (nm, sc) :: ms, (acc, seen) =>
      if 60 ≤ sc then
        match values.find? (fun l => l.name = nm && !(seen.contains l.id)) with
        | some l => nameLoop values ms (acc ++ [l], seen ++ [l.id])
        | none => nameLoop values ms (acc, seen)
      else nameLoop values ms (acc, seen)

/-- The second loop over `id_matches` (lines 208-214): for each unseen
high-confidence id match present as a registry key, append its record. -/
def idLoop (registry : Registry) :
    List (String × Nat) → List LibraryInfo × List String → List LibraryInfo × List String
  | [], st => st
  | (mid, sc) :: ms, (acc, seen) =>
      if 60 ≤ sc && !(seen.contains mid) then
        match dictLookup mid registry with
        | some l => idLoop registry ms (acc ++ [l], seen ++ [l.id])
        | none => idLoop registry ms (acc, seen)
      else idLoop registry ms (acc, seen)

/-- Python's `max` over a list of rationals (`0` for the empty list, which
the source guards with `if name_matches or id_matches`); among equal
maxima Python keeps the first, hence the strict comparison. -/
def pyMaxQ : List ℚ → ℚ
  | [] => 0
  | x :: xs => xs.foldl (fun cur y => if cur < y then y else cur) x

/-- The exact-match pass of `resolve_library` (lines 172-183): a direct
key hit, else a linear scan of the registry values in insertion order. -/
def exactMatchOf (registry : Registry) (nq : String) : Option LibraryInfo :=
  match dictLookup nq registry with
  | some lib => some lib
  | none => (dictValues registry).find? (matchCond nq)

/-- `LibraryResolver.resolve_library`, with the fuzzy scorer
(`fuzz.ratio`) as an explicit collaborator parameter. -/
def resolve_library (ratioFn : String → String → Nat) (registry : Registry)
    (library_name : String) : LibraryResolutionResult :=
  let query := pyStrip (pyLower library_name)
  let exact : Option LibraryInfo := exactMatchOf registry query
  let library_names := (dictValues registry).map (·.name)
  let library_ids := (dictValues registry).map (·.id)
  let name_matches := processExtract ratioFn query library_names
  let id_matches := processExtract ratioFn query library_ids
  let st := idLoop registry id_matches (nameLoop (dictValues registry) name_matches ([], []))
  let all_matches :=
    st.1.insertionSort fun a b => b.popularity_score ≤ a.popularity_score
  let confidence : ℚ :=
    if exact.isSome then 1
    else pyMaxQ ((name_matches ++ id_matches).map fun m => mkRat m.2 100)
  { query := library_name
    matches' := all_matches.take 10
    exact_match := exact
    confidence_score := confidence }

/-! ### Documentation fetcher (`tools/documentation_fetcher.py`) -/

/-- Tail of a heading marker: optional further `#` characters, then a
`\s` character. -/
def headingTail : List Char → Bool
  | [] => false
  | c :: rest => if c = '#' then headingTail rest else isPySpace c

/-- Whether a heading marker `#+\s` starts at this position. -/
def headingAt : List Char → Bool
  | '#' :: rest => headingTail rest
  | _ => false

/-- Whether a heading marker starts right after some newline. -/
def hasHeadingFrom : List Char → Bool
  | [] => false
  | c :: rest => (c = '\n' && headingAt rest) || hasHeadingFrom rest

/-- `re.search(r'^#+\s', content, re.MULTILINE)`: a heading marker at the
start of the string or of a later line. -/
def hasHeadingMarker (l : List Char) : Bool := headingAt l || hasHeadingFrom l

/-- The additive steps of `_calculate_quality_score` in integer tenths.
The Python code uses the decimal steps `0.5`, `+0.2`, `+0.1`, `-0.2`,
`+0.1` and clamps with `min(1.0, max(0.0, score))`; tenths represent
these decimals exactly and all comparisons agree with the float run. -/
def qualityTenths (content : String) : Int :=
  let s0 : Int := 5
  let s1 := if hasSub "```".data content.data || hasSub "`".data content.data then s0 + 2 else s0
  let s2 := if hasHeadingMarker content.data then s1 + 1 else s1
  let s3 := if hasSub "[".data content.data && hasSub "](".data content.data then s2 + 1 else s2
  let s4 := if content.data.length < 500 then s3 - 2 else s3
  let s5 := if 2000 < content.data.length then s4 + 1 else s4
  min 10 (max 0 s5)

/-- `DocumentationFetcher._calculate_quality_score`. -/
def calculate_quality_score (content : String) : ℚ :=
  if content = "" then 0 else mkRat (qualityTenths content) 10

/-- The truncation marker appended by `_truncate_content`. -/
def truncationMarker : String := "\n\n[Content truncated...]"

/-- The kept slice of `_truncate_content`: the first `max_tokens` tokens
rejoined with single spaces, cut back to the last `'.'` or newline
(`cut_point = max(last_period, last_newline)`, `-1` when absent) only
when that boundary lies strictly past 80% of the slice.  The Python test
`cut_point > len(truncated_text) * 0.8` is modelled as the exact rational
comparison `5 * cut_point > 4 * length`, which agrees with the float
comparison for every realistic length. -/
def truncateKept (content : String) (max_tokens : Nat) : List Char :=
  let truncated := spaceJoin ((tokenize content.data).take max_tokens)
  let last_period := rfindIdx '.' truncated
  let last_newline := rfindIdx '\n' truncated
  let cut_point := if last_period ≤ last_newline then last_newline else last_period
  if 4 * (truncated.length : Int) < 5 * cut_point then
    truncated.take (cut_point + 1).toNat
  else truncated

/-- `DocumentationFetcher._truncate_content`. -/
def truncate_content (content : String) (max_tokens : Nat) : String :=
  if (tokenize content.data).length ≤ max_tokens then content
  else String.mk (truncateKept content max_tokens) ++ truncationMarker

/-- The separator `"\n\n---\n\n"` placed between combined fragments. -/
def contentSeparator : String := "\n\n---\n\n"

/-- The budget loop of `_combine_content` (lines 388-404): walk the
sorted fragments, keep whole fragments while they fit, truncate the first
overflowing fragment when more than 100 tokens of budget remain
(otherwise drop it), and stop at the first overflow either way. -/
def combine_loop (max_tokens : Nat) : List DocumentationContent → Nat → List String
  | [], _ => []
  | c :: rest, current_tokens =>
      if max_tokens < current_tokens + count_tokens c.content then
        if 100 < max_tokens - current_tokens then
          [truncate_content c.content (max_tokens - current_tokens)]
        else []
      else c.content :: combine_loop max_tokens rest (current_tokens + count_tokens c.content)

/-- `content_list.sort(key=lambda x: x.quality_score, reverse=True)`:
Python's stable descending sort by the (stored) quality score. -/
def sortByQuality (l : List DocumentationContent) : List DocumentationContent :=
  l.insertionSort fun a b => b.quality_score ≤ a.quality_score

/-- `DocumentationFetcher._combine_content`. -/
def combine_content (content_list : List DocumentationContent) (max_tokens : Nat) : String :=
  if content_list.isEmpty then ""
  else String.intercalate contentSeparator (combine_loop max_tokens (sortByQuality content_list) 0)

/-- `sum(self._count_tokens(c.content) for c in all_content)`. -/
def totalTokens (l : List DocumentationContent) : Nat :=
  (l.map fun c => count_tokens c.content).sum

/-- `sorted(library.documentation_sources, key=lambda x: x.priority)`:
Python's stable ascending sort by priority. -/
def sortSourcesByPriority (sources : List DocumentationSource) : List DocumentationSource :=
  sources.insertionSort fun a b => a.priority ≤ b.priority

/-- The per-source loop of `fetch_documentation` (lines 101-115).  The
per-source fetcher (network and extraction; `none` covers both a `None`
result and a caught exception) is a collaborator parameter.  The second
component of the result is the trace of sources actually attempted, in
order. -/
def fetch_loop (fetchFn : DocumentationSource → Option DocumentationContent)
    (max_tokens : Nat) :
    List DocumentationSource → List DocumentationContent →
      List DocumentationContent × List DocumentationSource
  | [], acc => (acc, [])
  | s :: rest, acc =>
      match fetchFn s with
      | none =>
          let r := fetch_loop fetchFn max_tokens rest acc
          (r.1, s :: r.2)
      | some c =>
          let acc' := acc ++ [c]
          if max_tokens ≤ totalTokens acc' then (acc', [s])
          else
            let r := fetch_loop fetchFn max_tokens rest acc'
            (r.1, s :: r.2)

/-- The fragments gathered by one `fetch_documentation` call. -/
def fetchedContents (fetchFn : DocumentationSource → Option DocumentationContent)
    (lib : LibraryInfo) (max_tokens : Nat) : List DocumentationContent :=
  (fetch_loop fetchFn max_tokens (sortSourcesByPriority lib.documentation_sources) []).1

/-- The sources actually attempted by one `fetch_documentation` call. -/
def attemptedSources (fetchFn : DocumentationSource → Option DocumentationContent)
    (lib : LibraryInfo) (max_tokens : Nat) : List DocumentationSource :=
  (fetch_loop fetchFn max_tokens (sortSourcesByPriority lib.documentation_sources) []).2

/-! ### Cache manager (`core/cache.py`), in-process backend -/

/-- A memory-cache entry (`{"value": ..., "expires_at": ..., "created_at": ...}`),
timestamps in seconds. -/
structure CacheEntry (α : Type) where
  value : α
  expires_at : Nat
  created_at : Nat
deriving DecidableEq, Repr

/-- The in-process backend `self._memory_cache`. -/
abbrev MemCache (α : Type) := List (String × CacheEntry α)

/-- `CacheManager._is_expired`: strictly past `expires_at`. -/
def is_expired {α : Type} (now : Nat) (e : CacheEntry α) : Bool := e.expires_at < now

/-- `CacheManager.get` on the memory backend: lazily expires and removes
a stale entry; returns the stored value otherwise.  The second component
is the backend after the call. -/
def cacheGet {α : Type} (cache : MemCache α) (key : String) (now : Nat) :
    Option α × MemCache α :=
  match dictLookup key cache with
  | some e => if is_expired now e then (none, dictRemove key cache) else (some e.value, cache)
  | none => (none, cache)

/-- The sort key of the eviction step:
`self._memory_cache[k].get("created_at", "")`. -/
def createdAtOf {α : Type} (cache : MemCache α) (k : String) : Nat :=
  ((dictLookup k cache).map (·.created_at)).getD 0

/-- The eviction step of `CacheManager.set` (lines 106-113): when more
than 1000 entries are present, delete the 100 keys with the oldest
`created_at`. -/
def evictOldest {α : Type} (cache : MemCache α) : MemCache α :=
  if 1000 < cache.length then
    (((dictKeys cache).insertionSort
        fun a b => createdAtOf cache a ≤ createdAtOf cache b).take 100).foldl
      (fun c k => dictRemove k c) cache
  else cache

/-- `CacheManager.set` on the memory backend: `ttl` defaults to the
configured `CACHE_TTL_SECONDS`, `expires_at = now + ttl`,
`created_at = now`; evict before inserting. -/
def cacheSet {α : Type} (cache : MemCache α) (key : String) (value : α)
    (ttl : Option Nat) (default_ttl : Nat) (now : Nat) : MemCache α :=
  let t := ttl.getD default_ttl
  let entry : CacheEntry α := { value := value, expires_at := now + t, created_at := now }
  dictInsert key entry (evictOldest cache)

/-- `":".join(key_parts)`. -/
def joinColon : List String → String
  | [] => ""
  | [s] => s
  | s :: s' :: rest => s ++ ":" ++ joinColon (s' :: rest)

/-- `CacheManager.get_cache_key`. -/
def get_cache_key (pfx : String) (args : List String) : String :=
  joinColon (pfx :: args)

/-! ### Registry refresh (`library_resolver.py`, lines 237-303) -/

/-- Outcome of the network fetch in `_update_registry`: a raised network
exception, or an HTTP response whose body either parses as JSON or does
not (`response.json()` raising is caught by the same handler). -/
inductive FetchOutcome (ρ : Type) where
  | failure
  | response (status : Nat) (body : Except Unit ρ)

/-- A fetched registry document: the `libraries` list, each entry either
parsing into a `LibraryInfo` or malformed (skipped with a warning by
`_process_registry_data`). -/
abbrev RegistryFeed := List (Except Unit LibraryInfo)

/-- `LibraryResolver._process_registry_data`: upsert every well-formed
entry under its id key and its lower-cased name key; skip malformed
entries. -/
def process_registry_data (d : RegistryFeed) (reg : Registry) : Registry :=
  d.foldl (fun reg e =>
    match e with
    | .ok lib => registerLibrary reg lib
    | .error _ => reg) reg

/-- Registry plus `_last_update` timestamp. -/
structure ResolverState where
  registry : Registry
  last_update : Option Nat
deriving DecidableEq

/-- `LibraryResolver._update_registry`: on HTTP 200 with a parsable body,
merge the feed and advance `_last_update`; on a non-200 status, a network
error, or a parse error, leave the state untouched. -/
def update_registry (outcome : FetchOutcome RegistryFeed) (now : Nat)
    (st : ResolverState) : ResolverState :=
  match outcome with
  | .failure => st
  | .response status body =>
      if status = 200 then
        match body with
        | .ok d => { registry := process_registry_data d st.registry, last_update := some now }
        | .error _ => st
      else st

/-- `LibraryResolver._should_update_registry`. -/
def should_update_registry (st : ResolverState) (now interval : Nat) : Bool :=
  match st.last_update with
  | none => true
  | some t => interval < now - t

/-! ### Helper lemmas: dict model -/

theorem dictLookup_mem {β : Type} {k : String} {v : β} :
    ∀ {d : List (String × β)}, dictLookup k d = some v → (k, v) ∈ d := by
  intro d h
  induction d with
  | nil => simp [dictLookup] at h
  | cons kv rest ih =>
      obtain ⟨k', v'⟩ := kv
      by_cases hk : k' = k
      · subst hk
        simp [dictLookup] at h
        simp [h]
      · simp [dictLookup, hk] at h
        exact List.mem_cons_of_mem _ (ih h)

theorem mem_dictValues_of_lookup {β : Type} {k : String} {v : β} {d : List (String × β)}
    (h : dictLookup k d = some v) : v ∈ dictValues d := by
  have := dictLookup_mem h
  exact List.mem_map.2 ⟨(k, v), this, rfl⟩

theorem dictLookup_dictInsert_self {β : Type} (k : String) (v : β) :
    ∀ (d : List (String × β)), dictLookup k (dictInsert k v d) = some v := by
  intro d
  induction d with
  | nil => simp [dictInsert, dictLookup]
  | cons kv rest ih =>
      obtain ⟨k', v'⟩ := kv
      by_cases hk : k' = k
      · subst hk; simp [dictInsert, dictLookup]
      · simp [dictInsert, dictLookup, hk, ih]

theorem length_dictInsert_le {β : Type} (k : String) (v : β) :
    ∀ (d : List (String × β)), (dictInsert k v d).length ≤ d.length + 1 := by
  intro d
  induction d with
  | nil => simp [dictInsert]
  | cons kv rest ih =>
      obtain ⟨k', v'⟩ := kv
      by_cases hk : k' = k
      · simp [dictInsert, hk]
      · simp only [dictInsert, hk, if_false, List.length_cons]
        omega

@[simp] theorem dictKeys_nil {β : Type} : dictKeys ([] : List (String × β)) = [] := rfl

@[simp] theorem dictKeys_cons {β : Type} (k : String) (v : β) (d : List (String × β)) :
    dictKeys ((k, v) :: d) = k :: dictKeys d := rfl

theorem length_dictInsert_of_not_mem {β : Type} {k : String} (v : β)
    {d : List (String × β)} (h : k ∉ dictKeys d) :
    (dictInsert k v d).length = d.length + 1 := by
  induction d with
  | nil => simp [dictInsert]
  | cons kv rest ih =>
      obtain ⟨k', v'⟩ := kv
      rw [dictKeys_cons, List.mem_cons] at h
      push_neg at h
      simp [dictInsert, Ne.symm h.1, ih h.2]

theorem length_dictRemove_of_mem {β : Type} {k : String} :
    ∀ {d : List (String × β)}, k ∈ dictKeys d → (dictRemove k d).length + 1 = d.length := by
  intro d h
  induction d with
  | nil => simp at h
  | cons kv rest ih =>
      obtain ⟨k', v'⟩ := kv
      by_cases hk : k' = k
      · simp [dictRemove, hk]
      · rw [dictKeys_cons, List.mem_cons] at h
        rcases h with h | h
        · exact absurd h.symm hk
        · simp [dictRemove, hk, ih h]

theorem dictKeys_dictRemove_subset {β : Type} (k : String) :
    ∀ (d : List (String × β)), dictKeys (dictRemove k d) ⊆ dictKeys d := by
  intro d
  induction d with
  | nil => simp [dictRemove]
  | cons kv rest ih =>
      obtain ⟨k', v'⟩ := kv
      by_cases hk : k' = k
      · simp only [dictRemove, hk, if_true, dictKeys_cons]
        exact fun x hx => List.mem_cons_of_mem _ hx
      · simp only [dictRemove, hk, if_false, dictKeys_cons]
        intro x hx
        rcases List.mem_cons.1 hx with hx | hx
        · simp [hx]
        · exact List.mem_cons_of_mem _ (ih hx)

theorem mem_dictKeys_dictRemove {β : Type} {k k' : String} (hne : k ≠ k') :
    ∀ {d : List (String × β)}, k ∈ dictKeys d → k ∈ dictKeys (dictRemove k' d) := by
  intro d h
  induction d with
  | nil => simp at h
  | cons kv rest ih =>
      obtain ⟨k₀, v₀⟩ := kv
      rw [dictKeys_cons, List.mem_cons] at h
      by_cases hk : k₀ = k'
      · subst hk
        rcases h with h | h
        · exact absurd h hne
        · simpa [dictRemove] using h
      · rcases h with h | h
        · simp [dictRemove, hk, h]
        · simp only [dictRemove, hk, if_false, dictKeys_cons]
          exact List.mem_cons_of_mem _ (ih h)

theorem dictKeys_nodup_dictRemove {β : Type} (k : String) :
    ∀ {d : List (String × β)}, (dictKeys d).Nodup → (dictKeys (dictRemove k d)).Nodup := by
  intro d h
  induction d with
  | nil => simp [dictRemove]
  | cons kv rest ih =>
      obtain ⟨k', v'⟩ := kv
      rw [dictKeys_cons, List.nodup_cons] at h
      by_cases hk : k' = k
      · simpa [dictRemove, hk] using h.2
      · simp only [dictRemove, hk, if_false, dictKeys_cons, List.nodup_cons]
        exact ⟨fun hmem => h.1 (dictKeys_dictRemove_subset k rest hmem), ih h.2⟩

/-! ### Helper lemmas: string normalization -/

theorem toNat_ofNat_of_small {n : Nat} (h : n < 55296) : (Char.ofNat n).toNat = n := by
  have hv : n.isValidChar := Or.inl h
  simp [Char.ofNat, hv, Char.ofNatAux, Char.toNat, UInt32.toNat, UInt32.ofNatCore]

theorem toNat_charLower_of_upper {c : Char} (h : 65 ≤ c.toNat ∧ c.toNat ≤ 90) :
    (charLower c).toNat = c.toNat + 32 := by
  rw [charLower, if_pos h]
  exact toNat_ofNat_of_small (by omega)

theorem charLower_idem (c : Char) : charLower (charLower c) = charLower c := by
  by_cases h : 65 ≤ c.toNat ∧ c.toNat ≤ 90
  · have htn := toNat_charLower_of_upper h
    have hno : ¬(65 ≤ (charLower c).toNat ∧ (charLower c).toNat ≤ 90) := by omega
    rw [show charLower (charLower c)
          = if 65 ≤ (charLower c).toNat ∧ (charLower c).toNat ≤ 90 then
              Char.ofNat ((charLower c).toNat + 32)
            else charLower c from rfl,
      if_neg hno]
  · have hc : charLower c = c := by rw [charLower, if_neg h]
    rw [hc, hc]

theorem isPySpace_charLower (c : Char) : isPySpace (charLower c) = isPySpace c := by
  by_cases h : 65 ≤ c.toNat ∧ c.toNat ≤ 90
  · have htn := toNat_charLower_of_upper h
    simp only [isPySpace, decide_eq_decide]
    omega
  · rw [charLower, if_neg h]

theorem pyLower_idem (s : String) : pyLower (pyLower s) = pyLower s := by
  simp only [pyLower, List.map_map]
  congr 1
  exact List.map_congr_left fun c _ => charLower_idem c

theorem pyLower_pyStrip (s : String) : pyLower (pyStrip s) = pyStrip (pyLower s) := by
  have hmapdrop : ∀ l : List Char,
      (l.map charLower).dropWhile isPySpace = (l.dropWhile isPySpace).map charLower := by
    intro l
    have hfun : (isPySpace ∘ charLower) = isPySpace := funext isPySpace_charLower
    rw [List.dropWhile_map, hfun]
  simp only [pyLower, pyStrip, stripChars]
  congr 1
  simp only [List.map_reverse, ← hmapdrop]

theorem pyLower_normalized (q : String) :
    pyLower (pyStrip (pyLower q)) = pyStrip (pyLower q) := by
  rw [pyLower_pyStrip, pyLower_idem]

/-! ### Helper lemmas: list utilities -/

theorem find?_eq_some_of_unique {α : Type} {p : α → Bool} {x : α} :
    ∀ {l : List α}, x ∈ l → p x = true → (∀ y ∈ l, p y = true → y = x) →
      l.find? p = some x := by
  intro l hx hp huniq
  induction l with
  | nil => simp at hx
  | cons a rest ih =>
      by_cases ha : p a = true
      · have : a = x := huniq a (by simp) ha
        subst this
        simp [List.find?, ha]
      · have hax : a ≠ x := fun h => ha (h ▸ hp)
        rcases List.mem_cons.1 hx with h | h
        · exact absurd h.symm hax
        · simp only [List.find?, ha]
          exact ih h fun y hy hpy => huniq y (List.mem_cons_of_mem _ hy) hpy

theorem length_le_of_nodup_subset {α : Type} [DecidableEq α] {l l' : List α}
    (hn : l.Nodup) (hs : l ⊆ l') : l.length ≤ l'.length := by
  have h1 : l.toFinset.card = l.length := List.toFinset_card_of_nodup hn
  have h2 : l.toFinset ⊆ l'.toFinset := by
    intro x hx
    rw [List.mem_toFinset] at hx ⊢
    exact hs hx
  have h3 := Finset.card_le_card h2
  have h4 := l'.toFinset_card_le
  omega

theorem pairwise_of_forall_mem {α : Type} {r : α → α → Prop} {p : α → Bool} :
    ∀ {l : List α}, (∀ x ∈ l, p x = true) → (∀ a b, p a = true → p b = true → r a b) →
      l.Pairwise r := by
  intro l hall hr
  induction l with
  | nil => simp
  | cons a rest ih =>
      refine List.Pairwise.cons ?_ (ih fun x hx => hall x (List.mem_cons_of_mem _ hx))
      intro b hb
      exact hr a b (hall a (by simp)) (hall b (List.mem_cons_of_mem _ hb))

theorem filter_insertionSort_of_all {α : Type} (r : α → α → Prop) [DecidableRel r]
    (p : α → Bool) (l : List α) (h : ∀ a b, p a = true → p b = true → r a b) :
    (l.insertionSort r).filter p = l.filter p := by
  have hpair : (l.filter p).Pairwise r :=
    pairwise_of_forall_mem (fun x hx => List.of_mem_filter hx) h
  have hsub : List.Sublist (l.filter p) (l.insertionSort r) :=
    List.sublist_insertionSort hpair (List.filter_sublist l)
  have hsub2 : List.Sublist ((l.filter p).filter p) ((l.insertionSort r).filter p) :=
    hsub.filter p
  rw [List.filter_filter] at hsub2
  have heq : (fun a => p a && p a) = p := by funext a; cases p a <;> simp
  rw [heq] at hsub2
  have hperm : List.Perm ((l.insertionSort r).filter p) (l.filter p) :=
    (List.perm_insertionSort r l).filter p
  exact (hsub2.eq_of_length hperm.length_eq.symm).symm

/-! ### Projection equations for `resolve_library` -/

theorem resolve_library_exact_match (ratioFn : String → String → Nat)
    (registry : Registry) (q : String) :
    (resolve_library ratioFn registry q).exact_match
      = exactMatchOf registry (pyStrip (pyLower q)) := rfl

theorem resolve_library_confidence (ratioFn : String → String → Nat)
    (registry : Registry) (q : String) :
    (resolve_library ratioFn registry q).confidence_score =
      if (exactMatchOf registry (pyStrip (pyLower q))).isSome then 1
      else
        pyMaxQ
          (((processExtract ratioFn (pyStrip (pyLower q)) ((dictValues registry).map (·.name)))
              ++ processExtract ratioFn (pyStrip (pyLower q)) ((dictValues registry).map (·.id))).map
            fun m => mkRat m.2 100) := rfl

theorem resolve_library_matches (ratioFn : String → String → Nat)
    (registry : Registry) (q : String) :
    (resolve_library ratioFn registry q).matches' =
      ((idLoop registry
            (processExtract ratioFn (pyStrip (pyLower q)) ((dictValues registry).map (·.id)))
            (nameLoop (dictValues registry)
              (processExtract ratioFn (pyStrip (pyLower q)) ((dictValues registry).map (·.name)))
              ([], []))).1.insertionSort
          (fun a b => b.popularity_score ≤ a.popularity_score)).take 10 := rfl

/-! ### Claim C1 -/

theorem exactMatchOf_eq_some (registry : Registry) (lib : LibraryInfo) (nq : String)
    (hkeys : ∀ kv ∈ registry, kv.1 = kv.2.id ∨ kv.1 = pyLower kv.2.name)
    (hlow : pyLower nq = nq)
    (hlib : lib ∈ dictValues registry)
    (hmc : matchCond nq lib = true)
    (huniq : ∀ w ∈ dictValues registry, matchCond nq w = true → w = lib) :
    exactMatchOf registry nq = some lib := by
  cases hlk : dictLookup nq registry with
  | some w =>
      have hmem := dictLookup_mem hlk
      have hw : nq = w.id ∨ nq = pyLower w.name := hkeys (nq, w) hmem
      have hwv : w ∈ dictValues registry := List.mem_map.2 ⟨(nq, w), hmem, rfl⟩
      have hmcw : matchCond nq w = true := by
        rcases hw with hw | hw
        · have h2 : pyLower w.id = nq := by rw [← hw]; exact hlow
          simp [matchCond, h2]
        · simp [matchCond, hw.symm]
      have hwl := huniq w hwv hmcw
      simp [exactMatchOf, hlk, hwl]
  | none =>
      simp only [exactMatchOf, hlk]
      exact find?_eq_some_of_unique hlib hmc fun y hy hpy => huniq y hy hpy

/-- C1: for every query that trims and lower-cases to a registry
library's display name or canonical id (case-insensitively, with the
match unambiguous in the registry), `resolve_library` returns that
library's record as `exact_match` and a `confidence_score` of `1.0`. -/
theorem C1_exact_resolution (ratioFn : String → String → Nat) (registry : Registry)
    (lib : LibraryInfo) (q : String)
    (hkeys : ∀ kv ∈ registry, kv.1 = kv.2.id ∨ kv.1 = pyLower kv.2.name)
    (hlib : lib ∈ dictValues registry)
    (hq : pyStrip (pyLower q) = pyLower lib.name ∨ pyStrip (pyLower q) = pyLower lib.id)
    (huniq : ∀ w ∈ dictValues registry,
      matchCond (pyStrip (pyLower q)) w = true → w = lib) :
    (resolve_library ratioFn registry q).exact_match = some lib ∧
    (resolve_library ratioFn registry q).confidence_score = 1 := by
  have hlow : pyLower (pyStrip (pyLower q)) = pyStrip (pyLower q) := pyLower_normalized q
  have hmc : matchCond (pyStrip (pyLower q)) lib = true := by
    rcases hq with hq | hq
    · simp [matchCond, hq.symm]
    · simp [matchCond, hq.symm]
  have hexact := exactMatchOf_eq_some registry lib _ hkeys hlow hlib hmc huniq
  refine ⟨?_, ?_⟩
  · rw [resolve_library_exact_match, hexact]
  · rw [resolve_library_confidence, hexact]
    rfl

/-- Witness for C1: the built-in registry, the query `"  React "` and the
React record. -/
theorem C1_exact_resolution_witness :
    ((∀ kv ∈ builtinRegistry, kv.1 = kv.2.id ∨ kv.1 = pyLower kv.2.name) ∧
      reactLib ∈ dictValues builtinRegistry ∧
      (pyStrip (pyLower "  React ") = pyLower reactLib.name ∨
        pyStrip (pyLower "  React ") = pyLower reactLib.id) ∧
      (∀ w ∈ dictValues builtinRegistry,
        matchCond (pyStrip (pyLower "  React ")) w = true → w = reactLib)) ∧
    (resolve_library fuzzRatio builtinRegistry "  React ").exact_match = some reactLib ∧
    (resolve_library fuzzRatio builtinRegistry "  React ").confidence_score = 1 :=
  ⟨⟨by decide, by decide, by decide, by decide⟩,
    C1_exact_resolution fuzzRatio builtinRegistry reactLib "  React "
      (by decide) (by decide) (by decide) (by decide)⟩

/-! ### Claim C2

`resolve_library` computes, when no exact match exists,
`confidence = max(score/100 over all name/id comparisons)` whenever the
registry is non-empty — even when every score is below the threshold 60.
The repository's own test `test_resolve_no_match` (and the spec) expect
`confidence == 0.0` in that situation, so the code contradicts its own
test suite: a code bug, exhibited below on the claim's example query. -/

/-- C2: at the claim's example input `"zzz-nonexistent-xyz"` against the
built-in registry, every name/id fuzzy score is below 60 and the result
has no exact match and no candidates, yet the returned
`confidence_score` is `0.38` (the maximum normalized score against
`Next.js`), not the `0.0` the claim and the repository's own test
require; at `"nonexistent-library-xyz"`, the exact input of
`test_resolve_no_match`, the code likewise returns `0.33` where the test
asserts `confidence_score == 0.0`. -/
theorem C2_no_match_confidence :
    (resolve_library fuzzRatio builtinRegistry "zzz-nonexistent-xyz").exact_match = none ∧
    (resolve_library fuzzRatio builtinRegistry "zzz-nonexistent-xyz").matches' = [] ∧
    (∀ lib ∈ dictValues builtinRegistry,
      fuzzRatio (fullProcess "zzz-nonexistent-xyz") (fullProcess lib.name) < 60 ∧
      fuzzRatio (fullProcess "zzz-nonexistent-xyz") (fullProcess lib.id) < 60) ∧
    (resolve_library fuzzRatio builtinRegistry "zzz-nonexistent-xyz").confidence_score
      = mkRat 38 100 ∧
    (resolve_library fuzzRatio builtinRegistry "zzz-nonexistent-xyz").confidence_score ≠ 0 ∧
    (resolve_library fuzzRatio builtinRegistry "nonexistent-library-xyz").exact_match = none ∧
    (resolve_library fuzzRatio builtinRegistry "nonexistent-library-xyz").matches' = [] ∧
    (resolve_library fuzzRatio builtinRegistry "nonexistent-library-xyz").confidence_score
      = mkRat 33 100 :=
  ⟨by decide, by decide, by decide, by decide, by decide, by decide, by decide, by decide⟩

/-! ### Claim C3: loop invariants -/

theorem nameLoop_subset (vals : List LibraryInfo) :
    ∀ (ms : List (String × Nat)) (st : List LibraryInfo × List String),
      ∀ x ∈ st.1, x ∈ (nameLoop vals ms st).1 := by
  intro ms
  induction ms with
  | nil =>
      intro st x hx
      obtain ⟨acc, seen⟩ := st
      simpa [nameLoop] using hx
  | cons m rest ih =>
      intro st x hx
      obtain ⟨nm, sc⟩ := m
      obtain ⟨acc, seen⟩ := st
      simp only [nameLoop]
      split
      · cases hfind : vals.find? (fun l => l.name = nm && !(seen.contains l.id)) with
        | some l => exact ih (acc ++ [l], seen ++ [l.id]) x (List.mem_append_left _ hx)
        | none => exact ih (acc, seen) x hx
      · exact ih (acc, seen) x hx

theorem nameLoop_inv (vals : List LibraryInfo) :
    ∀ (ms : List (String × Nat)) (acc : List LibraryInfo) (seen : List String),
      seen = acc.map (·.id) → (∀ x ∈ acc, x ∈ vals) → (acc.map (·.id)).Nodup →
      (nameLoop vals ms (acc, seen)).2 = (nameLoop vals ms (acc, seen)).1.map (·.id) ∧
      (∀ x ∈ (nameLoop vals ms (acc, seen)).1, x ∈ vals) ∧
      ((nameLoop vals ms (acc, seen)).1.map (·.id)).Nodup := by
  intro ms
  induction ms with
  | nil =>
      intro acc seen h1 h2 h3
      exact ⟨h1, h2, h3⟩
  | cons m rest ih =>
      intro acc seen h1 h2 h3
      obtain ⟨nm, sc⟩ := m
      simp only [nameLoop]
      split
      · cases hfind : vals.find? (fun l => l.name = nm && !(seen.contains l.id)) with
        | some l =>
            have hlv : l ∈ vals := List.mem_of_find?_eq_some hfind
            have hpred := List.find?_some hfind
            simp only [Bool.and_eq_true, Bool.not_eq_true', decide_eq_true_eq] at hpred
            have hnotseen : l.id ∉ acc.map (·.id) := by
              rw [← h1]
              intro hmem
              have h4 : seen.contains l.id = true := List.elem_iff.2 hmem
              rw [hpred.2] at h4
              exact Bool.false_ne_true h4
            refine ih (acc ++ [l]) (seen ++ [l.id]) ?_ ?_ ?_
            · simp [h1]
            · intro x hx
              rcases List.mem_append.1 hx with hx | hx
              · exact h2 x hx
              · rw [List.mem_singleton.1 hx]; exact hlv
            · rw [List.map_append]
              exact List.Nodup.append h3 (List.nodup_singleton _) (by
                intro a ha hb
                have hb' : a = l.id := by simpa using hb
                rw [hb'] at ha
                exact hnotseen ha)
        | none => exact ih acc seen h1 h2 h3
      · exact ih acc seen h1 h2 h3

theorem nameLoop_complete (vals : List LibraryInfo)
    (huniqName : ∀ v ∈ vals, ∀ w ∈ vals, v.name = w.name → v = w)
    (huniqId : ∀ v ∈ vals, ∀ w ∈ vals, v.id = w.id → v = w)
    (lib : LibraryInfo) (hlib : lib ∈ vals) (s : Nat) (hs : 60 ≤ s) :
    ∀ (ms : List (String × Nat)) (acc : List LibraryInfo) (seen : List String),
      seen = acc.map (·.id) → (∀ x ∈ acc, x ∈ vals) →
      (lib.name, s) ∈ ms →
      lib ∈ (nameLoop vals ms (acc, seen)).1 := by
  intro ms
  induction ms with
  | nil =>
      intro acc seen _ _ hmem
      simp at hmem
  | cons m rest ih =>
      intro acc seen h1 h2 hmem
      obtain ⟨nm, sc⟩ := m
      rcases List.mem_cons.1 hmem with hm | hm
      · injection hm with hnm hsc
        subst hnm
        subst hsc
        simp only [nameLoop, if_pos hs]
        cases hfind : vals.find? (fun l => l.name = lib.name && !(seen.contains l.id)) with
        | some l =>
            have hlv : l ∈ vals := List.mem_of_find?_eq_some hfind
            have hpred := List.find?_some hfind
            simp only [Bool.and_eq_true, decide_eq_true_eq] at hpred
            have hleq : l = lib := huniqName l hlv lib hlib hpred.1
            subst hleq
            exact nameLoop_subset vals rest _ l (List.mem_append_right _ (List.mem_singleton_self _))
        | none =>
            have hnone := List.find?_eq_none.1 hfind lib hlib
            have hseen : lib.id ∈ seen := by
              by_contra hns
              apply hnone
              have hc : List.elem lib.id seen = false := by
                cases hc : List.elem lib.id seen
                · rfl
                · exact absurd (List.elem_iff.1 hc) hns
              simpa [List.contains, hc] using hns
            rw [h1] at hseen
            obtain ⟨x, hxacc, hxid⟩ := List.mem_map.1 hseen
            have hxl : x = lib := huniqId x (h2 x hxacc) lib hlib hxid
            subst hxl
            exact nameLoop_subset vals rest _ x hxacc
      · simp only [nameLoop]
        split
        · cases hfind : vals.find? (fun l => l.name = nm && !(seen.contains l.id)) with
          | some l =>
              have hlv : l ∈ vals := List.mem_of_find?_eq_some hfind
              refine ih (acc ++ [l]) (seen ++ [l.id]) ?_ ?_ hm
              · simp [h1]
              · intro x hx
                rcases List.mem_append.1 hx with hx | hx
                · exact h2 x hx
                · rw [List.mem_singleton.1 hx]; exact hlv
          | none => exact ih acc seen h1 h2 hm
        · exact ih acc seen h1 h2 hm

theorem idLoop_subset (registry : Registry) :
    ∀ (ms : List (String × Nat)) (st : List LibraryInfo × List String),
      ∀ x ∈ st.1, x ∈ (idLoop registry ms st).1 := by
  intro ms
  induction ms with
  | nil =>
      intro st x hx
      obtain ⟨acc, seen⟩ := st
      simpa [idLoop] using hx
  | cons m rest ih =>
      intro st x hx
      obtain ⟨mid, sc⟩ := m
      obtain ⟨acc, seen⟩ := st
      simp only [idLoop]
      split
      · cases hlk : dictLookup mid registry with
        | some l => exact ih (acc ++ [l], seen ++ [l.id]) x (List.mem_append_left _ hx)
        | none => exact ih (acc, seen) x hx
      · exact ih (acc, seen) x hx

theorem idLoop_inv (registry : Registry)
    (hlookup : ∀ v ∈ dictValues registry, dictLookup v.id registry = some v) :
    ∀ (ms : List (String × Nat)) (acc : List LibraryInfo) (seen : List String),
      (∀ m ∈ ms, ∃ v ∈ dictValues registry, m.1 = v.id) →
      seen = acc.map (·.id) → (∀ x ∈ acc, x ∈ dictValues registry) →
      (acc.map (·.id)).Nodup →
      (idLoop registry ms (acc, seen)).2 = (idLoop registry ms (acc, seen)).1.map (·.id) ∧
      (∀ x ∈ (idLoop registry ms (acc, seen)).1, x ∈ dictValues registry) ∧
      ((idLoop registry ms (acc, seen)).1.map (·.id)).Nodup := by
  intro ms
  induction ms with
  | nil =>
      intro acc seen _ h1 h2 h3
      exact ⟨h1, h2, h3⟩
  | cons m rest ih =>
      intro acc seen hms h1 h2 h3
      obtain ⟨mid, sc⟩ := m
      simp only [idLoop]
      split
      · rename_i hguard
        simp only [Bool.and_eq_true, Bool.not_eq_true'] at hguard
        obtain ⟨v, hv, hvid0⟩ := hms (mid, sc) (by simp)
        have hvid : mid = v.id := hvid0
        cases hlk : dictLookup mid registry with
        | some l =>
            have hlv : l = v := by
              rw [hvid, hlookup v hv] at hlk
              exact (Option.some_inj.1 hlk).symm
            subst hlv
            have hnotseen : l.id ∉ acc.map (·.id) := by
              rw [← h1]
              intro hmem
              have h4 : seen.contains l.id = true := List.elem_iff.2 hmem
              rw [← hvid] at h4
              rw [hguard.2] at h4
              exact Bool.false_ne_true h4
            refine ih (acc ++ [l]) (seen ++ [l.id]) ?_ ?_ ?_ ?_
            · intro m hm
              exact hms m (List.mem_cons_of_mem _ hm)
            · simp [h1]
            · intro x hx
              rcases List.mem_append.1 hx with hx | hx
              · exact h2 x hx
              · rw [List.mem_singleton.1 hx]; exact hv
            · rw [List.map_append]
              exact List.Nodup.append h3 (List.nodup_singleton _) (by
                intro a ha hb
                have hb' : a = l.id := by simpa using hb
                rw [hb'] at ha
                exact hnotseen ha)
        | none => exact ih acc seen (fun m hm => hms m (List.mem_cons_of_mem _ hm)) h1 h2 h3
      · exact ih acc seen (fun m hm => hms m (List.mem_cons_of_mem _ hm)) h1 h2 h3

theorem idLoop_complete (registry : Registry)
    (hlookup : ∀ v ∈ dictValues registry, dictLookup v.id registry = some v)
    (huniqId : ∀ v ∈ dictValues registry, ∀ w ∈ dictValues registry, v.id = w.id → v = w)
    (lib : LibraryInfo) (hlib : lib ∈ dictValues registry) (s : Nat) (hs : 60 ≤ s) :
    ∀ (ms : List (String × Nat)) (acc : List LibraryInfo) (seen : List String),
      seen = acc.map (·.id) → (∀ x ∈ acc, x ∈ dictValues registry) →
      (lib.id, s) ∈ ms →
      lib ∈ (idLoop registry ms (acc, seen)).1 := by
  intro ms
  induction ms with
  | nil =>
      intro acc seen _ _ hmem
      simp at hmem
  | cons m rest ih =>
      intro acc seen h1 h2 hmem
      obtain ⟨mid, sc⟩ := m
      rcases List.mem_cons.1 hmem with hm | hm
      · injection hm with hmid hsc
        subst hmid
        subst hsc
        simp only [idLoop]
        by_cases hseen : lib.id ∈ seen
        · rw [h1] at hseen
          obtain ⟨x, hxacc, hxid⟩ := List.mem_map.1 hseen
          have hxl : x = lib := huniqId x (h2 x hxacc) lib hlib hxid
          subst hxl
          split
          · cases hlk : dictLookup x.id registry with
            | some l =>
                exact idLoop_subset registry rest _ x (List.mem_append_left _ hxacc)
            | none => exact idLoop_subset registry rest _ x hxacc
          · exact idLoop_subset registry rest _ x hxacc
        · have hguard : (60 ≤ s && !(seen.contains lib.id)) = true := by
            have hc : List.elem lib.id seen = false := by
              cases hc : List.elem lib.id seen
              · rfl
              · exact absurd (List.elem_iff.1 hc) hseen
            simpa [List.contains, hc, hs] using hseen
          rw [if_pos hguard, hlookup lib hlib]
          exact idLoop_subset registry rest _ lib
            (List.mem_append_right _ (List.mem_singleton_self _))
      · simp only [idLoop]
        split
        · cases hlk : dictLookup mid registry with
          | some l =>
              by_cases hlv : l ∈ dictValues registry
              · refine ih (acc ++ [l]) (seen ++ [l.id]) ?_ ?_ hm
                · simp [h1]
                · intro x hx
                  rcases List.mem_append.1 hx with hx | hx
                  · exact h2 x hx
                  · rw [List.mem_singleton.1 hx]; exact hlv
              · exact absurd (mem_dictValues_of_lookup hlk) hlv
          | none => exact ih acc seen h1 h2 hm
        · exact ih acc seen h1 h2 hm

theorem processExtract_mem (ratioFn : String → String → Nat) (q : String)
    (choices : List String) (h10 : choices.length ≤ 10) (c : String) (hc : c ∈ choices) :
    (c, ratioFn (fullProcess q) (fullProcess c)) ∈ processExtract ratioFn q choices := by
  unfold processExtract
  have hlen : ((choices.map fun c => (c, ratioFn (fullProcess q) (fullProcess c))).insertionSort
      fun a b => b.2 ≤ a.2).length ≤ 10 := by
    rw [List.length_insertionSort, List.length_map]
    exact h10
  rw [List.take_of_length_le hlen, List.mem_insertionSort]
  exact List.mem_map.2 ⟨c, hc, rfl⟩

theorem processExtract_src (ratioFn : String → String → Nat) (q : String)
    (choices : List String) (m : String × Nat) (hm : m ∈ processExtract ratioFn q choices) :
    ∃ c ∈ choices, m = (c, ratioFn (fullProcess q) (fullProcess c)) := by
  unfold processExtract at hm
  have hm2 := List.mem_of_mem_take hm
  rw [List.mem_insertionSort] at hm2
  obtain ⟨c, hc, hrfl⟩ := List.mem_map.1 hm2
  exact ⟨c, hc, hrfl.symm⟩

/-- C3 (amended): in a registry of at most 10 entries whose values have
pairwise-distinct ids and names and in which every value is retrievable
under its id key, every library whose name or id scores at least 60
fuzzy similarity against the normalized query appears in the candidate
list; the list carries no two entries with the same id, is sorted by
`popularity_score` descending, and has length at most 10.  (Without the
size bound the completeness part of the original claim is false, as the
counterexample shows.) -/
theorem C3_candidate_list (ratioFn : String → String → Nat) (registry : Registry)
    (q : String)
    (hlen : registry.length ≤ 10)
    (huniqId : ∀ v ∈ dictValues registry, ∀ w ∈ dictValues registry, v.id = w.id → v = w)
    (huniqName : ∀ v ∈ dictValues registry, ∀ w ∈ dictValues registry, v.name = w.name → v = w)
    (hlookup : ∀ v ∈ dictValues registry, dictLookup v.id registry = some v) :
    (∀ lib ∈ dictValues registry,
      (60 ≤ ratioFn (fullProcess (pyStrip (pyLower q))) (fullProcess lib.name) ∨
        60 ≤ ratioFn (fullProcess (pyStrip (pyLower q))) (fullProcess lib.id)) →
      lib ∈ (resolve_library ratioFn registry q).matches') ∧
    ((resolve_library ratioFn registry q).matches'.map (·.id)).Nodup ∧
    (resolve_library ratioFn registry q).matches'.Pairwise
      (fun a b => b.popularity_score ≤ a.popularity_score) ∧
    (resolve_library ratioFn registry q).matches'.length ≤ 10 := by
  haveI hTot : IsTotal LibraryInfo (fun a b => b.popularity_score ≤ a.popularity_score) :=
    ⟨fun a b => le_total b.popularity_score a.popularity_score⟩
  haveI hTrans : IsTrans LibraryInfo (fun a b => b.popularity_score ≤ a.popularity_score) :=
    ⟨fun _ _ _ hab hbc => le_trans hbc hab⟩
  have hvals_len : (dictValues registry).length ≤ 10 := by
    simpa [dictValues] using hlen
  rcases hst1 : nameLoop (dictValues registry)
      (processExtract ratioFn (pyStrip (pyLower q)) ((dictValues registry).map (·.name)))
      ([], []) with ⟨acc1, seen1⟩
  have hinv1 := nameLoop_inv (dictValues registry)
    (processExtract ratioFn (pyStrip (pyLower q)) ((dictValues registry).map (·.name)))
    [] [] rfl (by simp) (by simp)
  rw [hst1] at hinv1
  obtain ⟨hseen1, hvals1, hnodup1⟩ := hinv1
  have hms : ∀ m ∈ processExtract ratioFn (pyStrip (pyLower q))
      ((dictValues registry).map (·.id)),
      ∃ v ∈ dictValues registry, m.1 = v.id := by
    intro m hm
    obtain ⟨c, hc, hrfl⟩ := processExtract_src ratioFn _ _ m hm
    obtain ⟨v, hv, hvrfl⟩ := List.mem_map.1 hc
    exact ⟨v, hv, by rw [hrfl, ← hvrfl]⟩
  rcases hst2 : idLoop registry
      (processExtract ratioFn (pyStrip (pyLower q)) ((dictValues registry).map (·.id)))
      (acc1, seen1) with ⟨acc2, seen2⟩
  have hinv2 := idLoop_inv registry hlookup
    (processExtract ratioFn (pyStrip (pyLower q)) ((dictValues registry).map (·.id)))
    acc1 seen1 hms hseen1 hvals1 hnodup1
  rw [hst2] at hinv2
  obtain ⟨hseen2, hvals2, hnodup2⟩ := hinv2
  have hlen2 : acc2.length ≤ 10 :=
    le_trans (length_le_of_nodup_subset (List.Nodup.of_map _ hnodup2) hvals2) hvals_len
  have hsortlen :
      ((acc2.insertionSort fun a b => b.popularity_score ≤ a.popularity_score).length) ≤ 10 := by
    rw [List.length_insertionSort]
    exact hlen2
  have hmatches : (resolve_library ratioFn registry q).matches'
      = acc2.insertionSort fun a b => b.popularity_score ≤ a.popularity_score := by
    rw [resolve_library_matches, hst1, hst2]
    exact List.take_of_length_le hsortlen
  refine ⟨?_, ?_, ?_, ?_⟩
  · intro lib hlib hscore
    rw [hmatches, List.mem_insertionSort]
    have hlib2 : lib ∈ acc2 := by
      rcases hscore with hname | hid
      · have hmemName :
            (lib.name, ratioFn (fullProcess (pyStrip (pyLower q))) (fullProcess lib.name))
              ∈ processExtract ratioFn (pyStrip (pyLower q))
                  ((dictValues registry).map (·.name)) :=
          processExtract_mem ratioFn _ _ (by rw [List.length_map]; exact hvals_len)
            lib.name (List.mem_map.2 ⟨lib, hlib, rfl⟩)
        have h1 : lib ∈ (nameLoop (dictValues registry)
            (processExtract ratioFn (pyStrip (pyLower q))
              ((dictValues registry).map (·.name))) ([], [])).1 :=
          nameLoop_complete (dictValues registry) huniqName huniqId lib hlib _ hname
            _ [] [] rfl (by simp) hmemName
        rw [hst1] at h1
        have h2 := idLoop_subset registry
          (processExtract ratioFn (pyStrip (pyLower q)) ((dictValues registry).map (·.id)))
          (acc1, seen1) lib h1
        rw [hst2] at h2
        exact h2
      · have hmemId :
            (lib.id, ratioFn (fullProcess (pyStrip (pyLower q))) (fullProcess lib.id))
              ∈ processExtract ratioFn (pyStrip (pyLower q))
                  ((dictValues registry).map (·.id)) :=
          processExtract_mem ratioFn _ _ (by rw [List.length_map]; exact hvals_len)
            lib.id (List.mem_map.2 ⟨lib, hlib, rfl⟩)
        have h2 : lib ∈ (idLoop registry
            (processExtract ratioFn (pyStrip (pyLower q))
              ((dictValues registry).map (·.id))) (acc1, seen1)).1 :=
          idLoop_complete registry hlookup huniqId lib hlib _ hid _ acc1 seen1
            hseen1 hvals1 hmemId
        rw [hst2] at h2
        exact h2
    exact hlib2
  · rw [hmatches]
    have hperm : List.Perm
        ((acc2.insertionSort fun a b => b.popularity_score ≤ a.popularity_score).map (·.id))
        (acc2.map (·.id)) :=
      (List.perm_insertionSort _ acc2).map _
    exact hperm.nodup_iff.2 hnodup2
  · rw [hmatches]
    exact List.sorted_insertionSort _ acc2
  · rw [hmatches]
    exact hsortlen

/-- A minimal library record for the C3 counterexample registry. -/
def tinyLib (nm idStr : String) (p : Nat) : LibraryInfo :=
  { id := idStr, name := nm, popularity_score := mkRat p 100 }

/-- Eleven libraries whose display names all score 86 against the query
`"aaa"` under the fuzzy scorer. -/
def elevenLibs : List LibraryInfo :=
  [ tinyLib "aaab" "/z/b" 1, tinyLib "aaac" "/z/c" 2, tinyLib "aaad" "/z/d" 3,
    tinyLib "aaae" "/z/e" 4, tinyLib "aaaf" "/z/f" 5, tinyLib "aaag" "/z/g" 6,
    tinyLib "aaah" "/z/h" 7, tinyLib "aaai" "/z/i" 8, tinyLib "aaaj" "/z/j" 9,
    tinyLib "aaak" "/z/k" 10, tinyLib "aaal" "/z/l" 11 ]

/-- The registry seeded with the eleven libraries. -/
def elevenRegistry : Registry := elevenLibs.foldl registerLibrary []

/-- Counterexample to C3 as stated: in `elevenRegistry`, the library
`"aaag"` scores 86 ≥ 60 against the query `"aaa"` but is absent from the
returned candidate list (the two `limit=10` extractions over the doubled
value list and the final cap lose it), refuting the claim's completeness
for arbitrary registry states. -/
theorem C3_counterexample :
    60 ≤ fuzzRatio (fullProcess (pyStrip (pyLower "aaa")))
      (fullProcess (tinyLib "aaag" "/z/g" 6).name) ∧
    tinyLib "aaag" "/z/g" 6 ∈ dictValues elevenRegistry ∧
    tinyLib "aaag" "/z/g" 6 ∉ (resolve_library fuzzRatio elevenRegistry "aaa").matches' :=
  ⟨by decide, by decide, by decide⟩

/-- Witness for C3 (amended): a three-library registry (six entries) and
the query `"react"`. -/
theorem C3_candidate_list_witness :
    (([nextjsLib, supabaseLib, reactLib].foldl registerLibrary []).length ≤ 10 ∧
      (∀ v ∈ dictValues ([nextjsLib, supabaseLib, reactLib].foldl registerLibrary []),
        ∀ w ∈ dictValues ([nextjsLib, supabaseLib, reactLib].foldl registerLibrary []),
          v.id = w.id → v = w) ∧
      (∀ v ∈ dictValues ([nextjsLib, supabaseLib, reactLib].foldl registerLibrary []),
        ∀ w ∈ dictValues ([nextjsLib, supabaseLib, reactLib].foldl registerLibrary []),
          v.name = w.name → v = w) ∧
      (∀ v ∈ dictValues ([nextjsLib, supabaseLib, reactLib].foldl registerLibrary []),
        dictLookup v.id ([nextjsLib, supabaseLib, reactLib].foldl registerLibrary [])
          = some v)) ∧
    ((∀ lib ∈ dictValues ([nextjsLib, supabaseLib, reactLib].foldl registerLibrary []),
      (60 ≤ fuzzRatio (fullProcess (pyStrip (pyLower "react"))) (fullProcess lib.name) ∨
        60 ≤ fuzzRatio (fullProcess (pyStrip (pyLower "react"))) (fullProcess lib.id)) →
      lib ∈ (resolve_library fuzzRatio ([nextjsLib, supabaseLib, reactLib].foldl
        registerLibrary []) "react").matches') ∧
    ((resolve_library fuzzRatio ([nextjsLib, supabaseLib, reactLib].foldl
        registerLibrary []) "react").matches'.map (·.id)).Nodup ∧
    (resolve_library fuzzRatio ([nextjsLib, supabaseLib, reactLib].foldl
        registerLibrary []) "react").matches'.Pairwise
      (fun a b => b.popularity_score ≤ a.popularity_score) ∧
    (resolve_library fuzzRatio ([nextjsLib, supabaseLib, reactLib].foldl
        registerLibrary []) "react").matches'.length ≤ 10) :=
  ⟨⟨by decide, by decide, by decide, by decide⟩,
    C3_candidate_list fuzzRatio ([nextjsLib, supabaseLib, reactLib].foldl registerLibrary [])
      "react" (by decide) (by decide) (by decide) (by decide)⟩

/-! ### Claim C4

The fetchers construct `DocumentationContent` without a `quality_score`,
so every fetched fragment carries the model default `0.0`; the sort in
`_combine_content` keys on that stored field, which makes it a stable
no-op, and `_calculate_quality_score` is applied only to the combined
text.  The claim's "scored per fragment, concatenated by descending
heuristic score" is therefore false on the code. -/

/-- The plain fragment of the C4 counterexample (no code marker, short):
heuristic score 0.3. -/
def plainFragment : DocumentationContent :=
  { library_id := "/x/y", content := "Short plain fragment.", source_url := "u1",
    source_type := .official_docs, token_count := 4 }

/-- The code-bearing fragment of the C4 counterexample (inline code
marker, short): heuristic score 0.5. -/
def codeFragment : DocumentationContent :=
  { library_id := "/x/y", content := "`code` sample.", source_url := "u2",
    source_type := .github, token_count := 5 }

/-- Counterexample to C4 as stated: `plainFragment` scores strictly lower
than `codeFragment` under the stated heuristic, yet `_combine_content`
emits `plainFragment` first — the fetch order, not the heuristic order —
because both fragments carry the constructed default `quality_score = 0`. -/
theorem C4_counterexample :
    calculate_quality_score plainFragment.content
      < calculate_quality_score codeFragment.content ∧
    plainFragment.quality_score = 0 ∧
    codeFragment.quality_score = 0 ∧
    combine_content [plainFragment, codeFragment] 10000
      = "Short plain fragment.\n\n---\n\n`code` sample." ∧
    plainFragment.content ≠ codeFragment.content :=
  ⟨by decide, by decide, by decide, by decide, by decide⟩

/-- Modelled from the spec (§4.5 wording) for comparison: base 0.5;
+0.2 for an inline or block code marker; +0.1 for a line-start heading;
+0.1 for a markdown-style link; −0.2 if shorter than 500 characters;
+0.1 if longer than 2000 characters; clamped to `[0,1]`. -/
def specQualityScore (content : String) : ℚ :=
  let code : ℚ :=
    if hasSub "```".data content.data || hasSub "`".data content.data then mkRat 2 10 else 0
  let heading : ℚ := if hasHeadingMarker content.data then mkRat 1 10 else 0
  let link : ℚ :=
    if hasSub "[".data content.data && hasSub "](".data content.data then mkRat 1 10 else 0
  let short : ℚ := if content.data.length < 500 then mkRat 2 10 else 0
  let long : ℚ := if 2000 < content.data.length then mkRat 1 10 else 0
  min 1 (max 0 (mkRat 5 10 + code + heading + link - short + long))

/-- C4 (amended): fetched fragments all carry the default stored
`quality_score` (`0.0`), the quality sort in `_combine_content` is then a
stable no-op, so fragments are concatenated in fetch/priority order; the
stated heuristic (which `calculate_quality_score` implements exactly, on
non-empty text) is applied only to the combined result, not per
fragment. -/
theorem C4_combine_order (l : List DocumentationContent) (budget : Nat) (s : String)
    (hq : ∀ f ∈ l, f.quality_score = 0) (hs : s ≠ "") :
    sortByQuality l = l ∧
    combine_content l budget =
      (if l.isEmpty then ""
        else String.intercalate contentSeparator (combine_loop budget l 0)) ∧
    calculate_quality_score s = specQualityScore s := by
  have hsorted : l.Pairwise (fun a b => b.quality_score ≤ a.quality_score) :=
    pairwise_of_forall_mem (p := fun f => decide (f.quality_score = 0))
      (fun x hx => decide_eq_true (hq x hx))
      (fun a b ha hb => by
        rw [of_decide_eq_true ha, of_decide_eq_true hb])
  have hsort : sortByQuality l = l := List.Sorted.insertionSort_eq hsorted
  refine ⟨hsort, ?_, ?_⟩
  · rw [combine_content, hsort]
  · rw [calculate_quality_score, if_neg hs, specQualityScore, qualityTenths]
    split_ifs <;> norm_num [Rat.mkRat_eq_div]

/-- Witness for C4 (amended): the two counterexample fragments and a
one-character string. -/
theorem C4_combine_order_witness :
    ((∀ f ∈ [plainFragment, codeFragment], f.quality_score = 0) ∧ ("x" : String) ≠ "") ∧
    (sortByQuality [plainFragment, codeFragment] = [plainFragment, codeFragment] ∧
      combine_content [plainFragment, codeFragment] 10000 =
        (if ([plainFragment, codeFragment] : List DocumentationContent).isEmpty then ""
          else String.intercalate contentSeparator
            (combine_loop 10000 [plainFragment, codeFragment] 0)) ∧
      calculate_quality_score "x" = specQualityScore "x") :=
  ⟨⟨by decide, by decide⟩,
    C4_combine_order [plainFragment, codeFragment] 10000 "x" (by decide) (by decide)⟩

/-! ### Claim C5 -/

theorem totalTokens_cons (c : DocumentationContent) (l : List DocumentationContent) :
    totalTokens (c :: l) = count_tokens c.content + totalTokens l := by
  simp [totalTokens]

theorem combine_loop_append (budget : Nat) :
    ∀ (pre rest : List DocumentationContent) (cur : Nat),
      cur + totalTokens pre ≤ budget →
      combine_loop budget (pre ++ rest) cur
        = pre.map (·.content) ++ combine_loop budget rest (cur + totalTokens pre) := by
  intro pre
  induction pre with
  | nil =>
      intro rest cur _
      simp [totalTokens]
  | cons c pre ih =>
      intro rest cur h
      rw [totalTokens_cons] at h
      simp only [List.cons_append, combine_loop]
      rw [if_neg (by omega)]
      simp only [List.append_eq]
      rw [ih rest (cur + count_tokens c.content) (by omega)]
      simp only [List.map_cons, List.cons_append, totalTokens_cons]
      congr 3
      omega

/-- C5: in `_combine_content`, the first fragment `f` whose token count
would push the running total strictly above the budget is truncated to
the remaining budget — provided strictly more than 100 tokens of budget
remain — and otherwise omitted, and combination stops either way (the
fragments after `f` never appear); a truncated text is the space-join of
the first remaining-budget tokens, backed off to the last sentence or
line boundary only when that boundary lies strictly past 80% of the
slice, and always ends with the truncation marker. -/
theorem C5_budget_truncation (budget : Nat) (pre : List DocumentationContent)
    (f : DocumentationContent) (rest : List DocumentationContent) (s : String) (n : Nat)
    (hpre : totalTokens pre ≤ budget)
    (hov : budget < totalTokens pre + count_tokens f.content)
    (hcnt : n < count_tokens s) :
    combine_loop budget (pre ++ f :: rest) 0
      = pre.map (·.content) ++
        (if 100 < budget - totalTokens pre then
          [truncate_content f.content (budget - totalTokens pre)]
        else []) ∧
    truncate_content s n = String.mk (truncateKept s n) ++ truncationMarker ∧
    truncateKept s n =
      (let sl := spaceJoin ((tokenize s.data).take n)
       let cp := if rfindIdx '.' sl ≤ rfindIdx '\n' sl then rfindIdx '\n' sl
                 else rfindIdx '.' sl
       if 4 * (sl.length : Int) < 5 * cp then sl.take (cp + 1).toNat else sl) := by
  refine ⟨?_, ?_, rfl⟩
  · rw [combine_loop_append budget pre (f :: rest) 0 (by omega)]
    simp only [combine_loop, Nat.zero_add]
    rw [if_pos (by omega)]
  · rw [truncate_content, if_neg (by rw [← count_tokens]; omega)]

/-- A fragment holding `k` space-separated one-letter words. -/
def wordsContent (k : Nat) : DocumentationContent :=
  { library_id := "/x/y", content := String.intercalate " " (List.replicate k "w"),
    source_url := "u", source_type := .community, token_count := k }

/-- Witness for C5: a 10-token fragment followed by a 150-token fragment
under a budget of 120 (118 tokens of budget remain, so the second
fragment is truncated). -/
theorem C5_budget_truncation_witness :
    (totalTokens [wordsContent 10] ≤ 120 ∧
      120 < totalTokens [wordsContent 10] + count_tokens (wordsContent 150).content ∧
      118 < count_tokens (wordsContent 150).content) ∧
    (combine_loop 120 ([wordsContent 10] ++ wordsContent 150 :: []) 0
      = [wordsContent 10].map (·.content) ++
        (if 100 < 120 - totalTokens [wordsContent 10] then
          [truncate_content (wordsContent 150).content (120 - totalTokens [wordsContent 10])]
        else []) ∧
    truncate_content (wordsContent 150).content 118
      = String.mk (truncateKept (wordsContent 150).content 118) ++ truncationMarker ∧
    truncateKept (wordsContent 150).content 118 =
      (let sl := spaceJoin ((tokenize (wordsContent 150).content.data).take 118)
       let cp := if rfindIdx '.' sl ≤ rfindIdx '\n' sl then rfindIdx '\n' sl
                 else rfindIdx '.' sl
       if 4 * (sl.length : Int) < 5 * cp then sl.take (cp + 1).toNat else sl)) :=
  ⟨⟨by decide, by decide, by decide⟩,
    C5_budget_truncation 120 [wordsContent 10] (wordsContent 150) []
      (wordsContent 150).content 118 (by decide) (by decide) (by decide)⟩

/-! ### Claim C6

`get_cache_key` is a plain colon-join, so it is *not* injective on
arbitrary requests: an argument containing `':'` collides with a split
argument list.  Injectivity does hold on colon-free parts. -/

theorem append_colon_inj :
    ∀ {u v x y : List Char}, u ++ ':' :: x = v ++ ':' :: y →
      ':' ∉ u → ':' ∉ v → u = v ∧ x = y := by
  intro u
  induction u with
  | nil =>
      intro v x y h _ hv
      cases v with
      | nil => simpa using h
      | cons b v =>
          simp only [List.nil_append, List.cons_append, List.cons.injEq] at h
          exact absurd (h.1 ▸ List.mem_cons_self b v) hv
  | cons a u ih =>
      intro v x y h hu hv
      cases v with
      | nil =>
          simp only [List.cons_append, List.nil_append, List.cons.injEq] at h
          exact absurd (h.1 ▸ List.mem_cons_self a u) (h.1 ▸ hu)
      | cons b v =>
          simp only [List.cons_append, List.cons.injEq] at h
          obtain ⟨huv, hxy⟩ :=
            ih h.2 (fun hm => hu (List.mem_cons_of_mem _ hm))
              (fun hm => hv (List.mem_cons_of_mem _ hm))
          exact ⟨by rw [h.1, huv], hxy⟩

theorem joinColon_data (x y : String) (r : List String) :
    (joinColon (x :: y :: r)).data = x.data ++ ':' :: (joinColon (y :: r)).data := by
  show (x ++ ":" ++ joinColon (y :: r)).data = _
  simp [String.data_append]

theorem joinColon_inj :
    ∀ (a : List String) (b : List String) (p q : String),
      (∀ t ∈ p :: a, ':' ∉ t.data) → (∀ t ∈ q :: b, ':' ∉ t.data) →
      joinColon (p :: a) = joinColon (q :: b) → p = q ∧ a = b := by
  intro a
  induction a with
  | nil =>
      intro b p q hp hq h
      cases b with
      | nil => exact ⟨h, rfl⟩
      | cons b0 b' =>
          have hd := congrArg String.data h
          rw [joinColon_data] at hd
          have : ':' ∈ p.data := by
            rw [show (joinColon [p]).data = p.data from rfl] at hd
            rw [hd]
            exact List.mem_append_right _ (List.mem_cons_self _ _)
          exact absurd this (hp p (List.mem_cons_self _ _))
  | cons a0 a' ih =>
      intro b p q hp hq h
      cases b with
      | nil =>
          have hd := congrArg String.data h
          rw [joinColon_data] at hd
          have : ':' ∈ q.data := by
            rw [show (joinColon [q]).data = q.data from rfl] at hd
            rw [← hd]
            exact List.mem_append_right _ (List.mem_cons_self _ _)
          exact absurd this (hq q (List.mem_cons_self _ _))
      | cons b0 b' =>
          have hd := congrArg String.data h
          rw [joinColon_data, joinColon_data] at hd
          obtain ⟨hpq, hrest⟩ := append_colon_inj hd
            (hp p (List.mem_cons_self _ _)) (hq q (List.mem_cons_self _ _))
          have hpq' : p = q := String.ext hpq
          have hjoin : joinColon (a0 :: a') = joinColon (b0 :: b') := String.ext hrest
          obtain ⟨h0, h'⟩ := ih b' a0 b0
            (fun t ht => hp t (List.mem_cons_of_mem _ ht))
            (fun t ht => hq t (List.mem_cons_of_mem _ ht)) hjoin
          exact ⟨hpq', by rw [h0, h']⟩

/-- Counterexample to C6 as stated: a colon inside an argument makes two
different logical requests produce the same key. -/
theorem C6_counterexample :
    get_cache_key "docs" ["a:b"] = get_cache_key "docs" ["a", "b"] ∧
    (("docs", ["a:b"]) : String × List String) ≠ ("docs", ["a", "b"]) :=
  ⟨by decide, by decide⟩

/-- C6 (amended): the cache key is the deterministic colon-join of the
namespace prefix and the ordered arguments — identical prefix and
argument list always give the identical key — and it is injective on
requests whose prefix and arguments contain no colon. -/
theorem C6_cache_key_injective (p q : String) (a b : List String)
    (hp : ∀ t ∈ p :: a, ':' ∉ t.data) (hq : ∀ t ∈ q :: b, ':' ∉ t.data) :
    get_cache_key p a = get_cache_key q b ↔ p = q ∧ a = b := by
  constructor
  · intro h
    exact joinColon_inj a b p q hp hq h
  · rintro ⟨rfl, rfl⟩
    rfl

/-- Witness for C6 (amended): two colon-free requests. -/
theorem C6_cache_key_injective_witness :
    ((∀ t ∈ ("docs" :: ["lib", "topic"] : List String), ':' ∉ t.data) ∧
      (∀ t ∈ ("docs" :: ["lib", "other"] : List String), ':' ∉ t.data)) ∧
    (get_cache_key "docs" ["lib", "topic"] = get_cache_key "docs" ["lib", "other"] ↔
      "docs" = "docs" ∧ ["lib", "topic"] = ["lib", "other"]) :=
  ⟨⟨by decide, by decide⟩,
    C6_cache_key_injective "docs" "docs" ["lib", "topic"] ["lib", "other"]
      (by decide) (by decide)⟩

/-! ### Claim C7

Eviction triggers on `len(cache) > 1000`, i.e. only at 1001 entries and
beyond; a `set` on a full 1000-entry cache therefore leaves 1001 entries,
refuting the claimed 1000 bound.  The invariant that does hold is 1001. -/

theorem foldl_dictRemove_length {β : Type} :
    ∀ (ks : List String) (d : List (String × β)),
      ks.Nodup → (∀ k ∈ ks, k ∈ dictKeys d) →
      (ks.foldl (fun c k => dictRemove k c) d).length = d.length - ks.length := by
  intro ks
  induction ks with
  | nil =>
      intro d _ _
      simp
  | cons k ks ih =>
      intro d hnodup hall
      simp only [List.foldl_cons, List.length_cons]
      have hmem : k ∈ dictKeys d := hall k (List.mem_cons_self _ _)
      have h1 : (dictRemove k d).length + 1 = d.length := length_dictRemove_of_mem hmem
      rw [ih (dictRemove k d) (List.Nodup.of_cons hnodup) ?_]
      · omega
      · intro k' hk'
        have hne : k' ≠ k := by
          intro heq
          exact (List.nodup_cons.1 hnodup).1 (heq ▸ hk')
        exact mem_dictKeys_dictRemove hne (hall k' (List.mem_cons_of_mem _ hk'))

theorem evictOldest_length {α : Type} (cache : MemCache α)
    (hnodup : (dictKeys cache).Nodup) (hev : 1000 < cache.length) :
    (evictOldest cache).length = cache.length - 100 := by
  rw [evictOldest, if_pos hev]
  have hperm : List.Perm
      ((dictKeys cache).insertionSort fun a b => createdAtOf cache a ≤ createdAtOf cache b)
      (dictKeys cache) :=
    List.perm_insertionSort _ _
  have hsortnodup := hperm.nodup_iff.2 hnodup
  have hkeyslen : (dictKeys cache).length = cache.length := by
    simp [dictKeys]
  rw [foldl_dictRemove_length _ cache
    (List.Nodup.sublist (List.take_sublist _ _) hsortnodup)
    (fun k hk => hperm.mem_iff.1 (List.mem_of_mem_take hk))]
  rw [List.length_take, List.length_insertionSort, hkeyslen]
  omega

/-- C7 (amended): starting from a well-formed backend of at most 1001
entries, a `set` leaves at most 1001 entries (1001 is reachable, so the
claimed bound of 1000 is off by one); when more than 1000 entries are
present, `set` first evicts exactly the 100 keys with the oldest
`created_at` (dropping the size by exactly 100) and only then inserts
the new entry. -/
theorem C7_cache_bound {α : Type} (cache : MemCache α) (k : String) (v : α)
    (ttl : Option Nat) (dttl now : Nat)
    (hnodup : (dictKeys cache).Nodup) (hlen : cache.length ≤ 1001) :
    (cacheSet cache k v ttl dttl now).length ≤ 1001 ∧
    cacheSet cache k v ttl dttl now
      = dictInsert k { value := v, expires_at := now + ttl.getD dttl, created_at := now }
          (evictOldest cache) ∧
    (1000 < cache.length → (evictOldest cache).length = cache.length - 100) := by
  refine ⟨?_, rfl, fun hev => evictOldest_length cache hnodup hev⟩
  have hins := length_dictInsert_le k
    ({ value := v, expires_at := now + ttl.getD dttl, created_at := now } : CacheEntry α)
    (evictOldest cache)
  by_cases hev : 1000 < cache.length
  · have := evictOldest_length cache hnodup hev
    have hset : (cacheSet cache k v ttl dttl now).length
        ≤ (evictOldest cache).length + 1 := hins
    omega
  · have hnoev : evictOldest cache = cache := by
      rw [evictOldest, if_neg hev]
    have hset : (cacheSet cache k v ttl dttl now).length
        ≤ (evictOldest cache).length + 1 := hins
    rw [hnoev] at hset
    omega

/-- The key `"a"^i`: `i` copies of the letter `a`. -/
def replicaKey (i : Nat) : String := String.mk (List.replicate i 'a')

/-- A full, well-formed 1000-entry cache state. -/
def thousandCache : MemCache Unit :=
  (List.range 1000).map fun i =>
    (replicaKey (i + 1), { value := (), expires_at := 10, created_at := 0 })

theorem thousandCache_length : thousandCache.length = 1000 := by
  simp [thousandCache]

theorem thousandCache_nodup : (dictKeys thousandCache).Nodup := by
  have hinj : Function.Injective fun i => replicaKey (i + 1) := by
    intro i j h
    have hd := congrArg (fun s => s.data.length) h
    simpa [replicaKey] using hd
  have : dictKeys thousandCache = (List.range 1000).map fun i => replicaKey (i + 1) := by
    simp [dictKeys, thousandCache, List.map_map, Function.comp]
  rw [this]
  exact (List.nodup_range 1000).map hinj

theorem fresh_not_mem_thousandCache : "fresh" ∉ dictKeys thousandCache := by
  intro hmem
  simp only [dictKeys, thousandCache, List.map_map, List.mem_map, List.mem_range,
    Function.comp] at hmem
  obtain ⟨i, _, hkey⟩ := hmem
  have hd := congrArg String.data hkey
  have hf : 'f' ∈ List.replicate (i + 1) 'a' := by
    show 'f' ∈ (replicaKey (i + 1)).data
    rw [hd]
    decide
  exact absurd (List.eq_of_mem_replicate hf) (by decide)

/-- Counterexample to C7 as stated: a `set` of a fresh key on a full,
well-formed 1000-entry backend triggers no eviction (`1000 > 1000` is
false) and leaves 1001 entries, exceeding the claimed maximum of 1000. -/
theorem C7_counterexample :
    (dictKeys thousandCache).Nodup ∧
    thousandCache.length = 1000 ∧
    (cacheSet thousandCache "fresh" () none 3600 0).length = 1001 := by
  refine ⟨thousandCache_nodup, thousandCache_length, ?_⟩
  show (dictInsert "fresh" _ (evictOldest thousandCache)).length = 1001
  have hnoev : evictOldest thousandCache = thousandCache := by
    rw [evictOldest, if_neg (by rw [thousandCache_length]; omega)]
  rw [hnoev, length_dictInsert_of_not_mem _ fresh_not_mem_thousandCache,
    thousandCache_length]

/-- Witness for C7 (amended): a two-entry cache. -/
theorem C7_cache_bound_witness :
    ((dictKeys [("k1", ({ value := (), expires_at := 9, created_at := 1 } : CacheEntry Unit)),
        ("k2", { value := (), expires_at := 9, created_at := 2 })]).Nodup ∧
      ([("k1", ({ value := (), expires_at := 9, created_at := 1 } : CacheEntry Unit)),
        ("k2", { value := (), expires_at := 9, created_at := 2 })] : MemCache Unit).length
        ≤ 1001) ∧
    ((cacheSet [("k1", { value := (), expires_at := 9, created_at := 1 }),
        ("k2", { value := (), expires_at := 9, created_at := 2 })] "k3" () (some 5) 3600 4).length
        ≤ 1001 ∧
      cacheSet [("k1", { value := (), expires_at := 9, created_at := 1 }),
          ("k2", { value := (), expires_at := 9, created_at := 2 })] "k3" () (some 5) 3600 4
        = dictInsert "k3" { value := (), expires_at := 4 + (some 5).getD 3600, created_at := 4 }
            (evictOldest [("k1", { value := (), expires_at := 9, created_at := 1 }),
              ("k2", { value := (), expires_at := 9, created_at := 2 })]) ∧
      (1000 < ([("k1", ({ value := (), expires_at := 9, created_at := 1 } : CacheEntry Unit)),
          ("k2", { value := (), expires_at := 9, created_at := 2 })] : MemCache Unit).length →
        (evictOldest [("k1", { value := (), expires_at := 9, created_at := 1 }),
          ("k2", { value := (), expires_at := 9, created_at := 2 })]).length
          = ([("k1", ({ value := (), expires_at := 9, created_at := 1 } : CacheEntry Unit)),
              ("k2", { value := (), expires_at := 9, created_at := 2 })] : MemCache Unit).length
            - 100)) :=
  ⟨⟨by decide, by decide⟩,
    C7_cache_bound
      [("k1", { value := (), expires_at := 9, created_at := 1 }),
        ("k2", { value := (), expires_at := 9, created_at := 2 })] "k3" () (some 5) 3600 4
      (by decide) (by decide)⟩

/-! ### Claim C8 -/

/-- C8: `get` on an entry whose `expires_at` has passed returns absent
and removes the entry as a side effect; `set(k, v, ttl)` immediately
followed by `get(k)` (any time up to expiry) returns `v`; `set` stores
`expires_at = now + ttl`, with `ttl` defaulting to the configured value
when omitted. -/
theorem C8_cache_semantics {α : Type} (cache : MemCache α) (k : String) (v : α)
    (e : CacheEntry α) (ttl dttl now now' later : Nat)
    (hlk : dictLookup k cache = some e)
    (hlater : e.expires_at < later)
    (hfresh : now' ≤ now + ttl) :
    cacheGet cache k later = (none, dictRemove k cache) ∧
    cacheGet (cacheSet cache k v (some ttl) dttl now) k now'
      = (some v, cacheSet cache k v (some ttl) dttl now) ∧
    dictLookup k (cacheSet cache k v (some ttl) dttl now)
      = some { value := v, expires_at := now + ttl, created_at := now } ∧
    dictLookup k (cacheSet cache k v none dttl now)
      = some { value := v, expires_at := now + dttl, created_at := now } := by
  refine ⟨?_, ?_, ?_, ?_⟩
  · simp [cacheGet, hlk, is_expired, hlater]
  · have hlk2 : dictLookup k (cacheSet cache k v (some ttl) dttl now)
        = some { value := v, expires_at := now + ttl, created_at := now } :=
      dictLookup_dictInsert_self k _ _
    simp [cacheGet, hlk2, is_expired]
    omega
  · exact dictLookup_dictInsert_self k _ _
  · exact dictLookup_dictInsert_self k _ _

/-- Witness for C8: a one-entry cache, an expired read at time 10, and a
set/get round trip at time 3 with ttl 5. -/
theorem C8_cache_semantics_witness :
    (dictLookup "k" [("k", ({ value := "old", expires_at := 7, created_at := 2 }
        : CacheEntry String))]
      = some { value := "old", expires_at := 7, created_at := 2 } ∧
      (7 : Nat) < 10 ∧ (3 : Nat) ≤ 3 + 5) ∧
    (cacheGet [("k", ({ value := "old", expires_at := 7, created_at := 2 }
        : CacheEntry String))] "k" 10
      = (none, dictRemove "k" [("k", { value := "old", expires_at := 7, created_at := 2 })]) ∧
    cacheGet (cacheSet [("k", { value := "old", expires_at := 7, created_at := 2 })]
        "k" "new" (some 5) 3600 3) "k" 3
      = (some "new", cacheSet [("k", { value := "old", expires_at := 7, created_at := 2 })]
          "k" "new" (some 5) 3600 3) ∧
    dictLookup "k" (cacheSet [("k", { value := "old", expires_at := 7, created_at := 2 })]
        "k" "new" (some 5) 3600 3)
      = some { value := "new", expires_at := 3 + 5, created_at := 3 } ∧
    dictLookup "k" (cacheSet [("k", { value := "old", expires_at := 7, created_at := 2 })]
        "k" "new" none 3600 3)
      = some { value := "new", expires_at := 3 + 3600, created_at := 3 }) :=
  ⟨⟨by decide, by decide, by decide⟩,
    C8_cache_semantics [("k", { value := "old", expires_at := 7, created_at := 2 })]
      "k" "new" { value := "old", expires_at := 7, created_at := 2 } 5 3600 3 3 10
      (by decide) (by decide) (by decide)⟩

/-! ### Claim C9 -/

/-- C9: when the refresh fetch fails (network error or non-200 status)
the registry and the last-refresh timestamp are left exactly as they
were — so `_should_update_registry` still answers as before and the next
access retries — and the timestamp is advanced only by a successful
fetch (HTTP 200 with a parsable body). -/
theorem C9_refresh_fail_soft (outcome : FetchOutcome RegistryFeed)
    (now now2 interval : Nat) (st : ResolverState)
    (hfail : outcome = FetchOutcome.failure ∨
      ∃ status body, outcome = FetchOutcome.response status body ∧ status ≠ 200) :
    update_registry outcome now st = st ∧
    should_update_registry (update_registry outcome now st) now2 interval
      = should_update_registry st now2 interval ∧
    (∀ (o : FetchOutcome RegistryFeed) (n : Nat) (s : ResolverState),
      (update_registry o n s).last_update ≠ s.last_update →
      ∃ d, o = FetchOutcome.response 200 (Except.ok d)) := by
  have hsame : update_registry outcome now st = st := by
    rcases hfail with hfail | ⟨status, body, hfail, hstatus⟩
    · rw [hfail]
      rfl
    · rw [hfail]
      simp [update_registry, hstatus]
  refine ⟨hsame, by rw [hsame], ?_⟩
  intro o n s h
  cases o with
  | failure => exact absurd rfl h
  | response status body =>
      by_cases hstatus : status = 200
      · cases body with
        | ok d => exact ⟨d, by rw [hstatus]⟩
        | error e =>
            exact absurd (by simp [update_registry, hstatus]) h
      · exact absurd (by simp [update_registry, hstatus]) h

/-- Witness for C9: an HTTP 500 response against a one-library state. -/
theorem C9_refresh_fail_soft_witness :
    ((FetchOutcome.response 500 (Except.ok ([] : RegistryFeed))
        = FetchOutcome.failure ∨
      ∃ status body, FetchOutcome.response 500 (Except.ok ([] : RegistryFeed))
        = FetchOutcome.response status body ∧ status ≠ 200)) ∧
    (update_registry (FetchOutcome.response 500 (Except.ok [])) 42
        { registry := builtinRegistry, last_update := some 7 }
      = { registry := builtinRegistry, last_update := some 7 } ∧
    should_update_registry
        (update_registry (FetchOutcome.response 500 (Except.ok [])) 42
          { registry := builtinRegistry, last_update := some 7 }) 50 24
      = should_update_registry { registry := builtinRegistry, last_update := some 7 } 50 24 ∧
    (∀ (o : FetchOutcome RegistryFeed) (n : Nat) (s : ResolverState),
      (update_registry o n s).last_update ≠ s.last_update →
      ∃ d, o = FetchOutcome.response 200 (Except.ok d))) :=
  ⟨Or.inr ⟨500, Except.ok [], rfl, by decide⟩,
    C9_refresh_fail_soft (FetchOutcome.response 500 (Except.ok [])) 42 50 24
      { registry := builtinRegistry, last_update := some 7 }
      (Or.inr ⟨500, Except.ok [], rfl, by decide⟩)⟩

/-! ### Claim C10 -/

theorem totalTokens_append (a b : List DocumentationContent) :
    totalTokens (a ++ b) = totalTokens a + totalTokens b := by
  simp [totalTokens]

theorem fetch_loop_attempts_take (ff : DocumentationSource → Option DocumentationContent)
    (budget : Nat) :
    ∀ (srcs : List DocumentationSource) (acc : List DocumentationContent),
      ∃ m, (fetch_loop ff budget srcs acc).2 = srcs.take m := by
  intro srcs
  induction srcs with
  | nil => exact fun _ => ⟨0, rfl⟩
  | cons s rest ih =>
      intro acc
      cases hff : ff s with
      | none =>
          obtain ⟨m, hm⟩ := ih acc
          exact ⟨m + 1, by simp [fetch_loop, hff, hm]⟩
      | some c =>
          by_cases hstop : budget ≤ totalTokens (acc ++ [c])
          · exact ⟨1, by simp [fetch_loop, hff, hstop]⟩
          · obtain ⟨m, hm⟩ := ih (acc ++ [c])
            exact ⟨m + 1, by simp [fetch_loop, hff, hstop, hm]⟩

theorem fetch_loop_early_stop (ff : DocumentationSource → Option DocumentationContent)
    (budget : Nat) :
    ∀ (srcs : List DocumentationSource) (acc : List DocumentationContent) (k : Nat),
      1 ≤ k → totalTokens acc < budget →
      budget ≤ totalTokens (acc ++ (srcs.take k).filterMap ff) →
      (fetch_loop ff budget srcs acc).2.length ≤ k := by
  intro srcs
  induction srcs with
  | nil =>
      intro acc k _ _ _
      simp [fetch_loop]
  | cons s rest ih =>
      intro acc k hk hlt hbud
      obtain ⟨k0, rfl⟩ : ∃ k0, k = k0 + 1 := ⟨k - 1, by omega⟩
      cases hff : ff s with
      | none =>
          cases k0 with
          | zero =>
              exfalso
              simp [hff, totalTokens_append] at hbud
              omega
          | succ k' =>
              have hb2 : budget ≤ totalTokens (acc ++ (rest.take (k' + 1)).filterMap ff) := by
                simpa [hff] using hbud
              have hrec := ih acc (k' + 1) (by omega) hlt hb2
              have hatt : (fetch_loop ff budget (s :: rest) acc).2
                  = s :: (fetch_loop ff budget rest acc).2 := by
                simp [fetch_loop, hff]
              rw [hatt, List.length_cons]
              omega
      | some c =>
          by_cases hstop : budget ≤ totalTokens (acc ++ [c])
          · have hatt : (fetch_loop ff budget (s :: rest) acc).2 = [s] := by
              simp [fetch_loop, hff, hstop]
            rw [hatt, List.length_singleton]
            omega
          · cases k0 with
            | zero =>
                exfalso
                simp only [List.take_succ_cons, List.take_zero, List.filterMap_cons, hff,
                  List.filterMap_nil] at hbud
                exact hstop (by simpa using hbud)
            | succ k' =>
                have hlt2 : totalTokens (acc ++ [c]) < budget := by omega
                have hb2 : budget
                    ≤ totalTokens ((acc ++ [c]) ++ (rest.take (k' + 1)).filterMap ff) := by
                  simp only [List.take_succ_cons, List.filterMap_cons, hff] at hbud
                  simpa [List.append_assoc] using hbud
                have hrec := ih (acc ++ [c]) (k' + 1) (by omega) hlt2 hb2
                have hatt : (fetch_loop ff budget (s :: rest) acc).2
                    = s :: (fetch_loop ff budget rest (acc ++ [c])).2 := by
                  simp [fetch_loop, hff, hstop]
                rw [hatt, List.length_cons]
                omega

/-- C10: within one `fetch_documentation` call the sources are attempted
in non-decreasing priority order (the attempted sources are a prefix of
the stably priority-sorted list, which is pairwise non-decreasing and
keeps the input order inside every priority class), and once the
fragments fetched so far total at least the token budget no further
source is fetched: whenever the successful fetches among the first `k`
sorted sources already meet the budget, at most `k` sources are ever
attempted. -/
theorem C10_priority_early_stop (ff : DocumentationSource → Option DocumentationContent)
    (lib : LibraryInfo) (budget k : Nat)
    (hbpos : 0 < budget) (hk : 1 ≤ k)
    (hbud : budget ≤ totalTokens
      (((sortSourcesByPriority lib.documentation_sources).take k).filterMap ff)) :
    (∃ m, attemptedSources ff lib budget
      = (sortSourcesByPriority lib.documentation_sources).take m) ∧
    (sortSourcesByPriority lib.documentation_sources).Pairwise
      (fun a b => a.priority ≤ b.priority) ∧
    (∀ p : Nat, (sortSourcesByPriority lib.documentation_sources).filter
        (fun s => s.priority = p)
      = lib.documentation_sources.filter (fun s => s.priority = p)) ∧
    (attemptedSources ff lib budget).length ≤ k := by
  haveI : IsTotal DocumentationSource (fun a b => a.priority ≤ b.priority) :=
    ⟨fun a b => Nat.le_total a.priority b.priority⟩
  haveI : IsTrans DocumentationSource (fun a b => a.priority ≤ b.priority) :=
    ⟨fun _ _ _ hab hbc => le_trans hab hbc⟩
  refine ⟨?_, ?_, ?_, ?_⟩
  · exact fetch_loop_attempts_take ff budget _ []
  · exact List.sorted_insertionSort _ _
  · intro p
    exact filter_insertionSort_of_all
      (fun a b : DocumentationSource => a.priority ≤ b.priority)
      (fun s : DocumentationSource => decide (s.priority = p))
      lib.documentation_sources
      (fun a b ha hb => by
        show a.priority ≤ b.priority
        rw [of_decide_eq_true ha, of_decide_eq_true hb])
  · exact fetch_loop_early_stop ff budget _ [] k hk (by simpa [totalTokens] using hbpos)
      (by simpa [totalTokens_append] using hbud)

/-- The three prioritized sources of the spec's early-stop scenario. -/
def scenarioSources : List DocumentationSource :=
  [ { url := "u1", type := .official_docs, priority := 1 },
    { url := "u2", type := .github, priority := 2 },
    { url := "u3", type := .community, priority := 3 } ]

/-- A library carrying the three scenario sources. -/
def scenarioLib : LibraryInfo :=
  { id := "/s/s", name := "S", documentation_sources := scenarioSources }

/-- A fetcher that answers every source with a six-token fragment. -/
def scenarioFetch (s : DocumentationSource) : Option DocumentationContent :=
  some { library_id := "/s/s", content := String.intercalate " " (List.replicate 6 "w"),
         source_url := s.url, source_type := s.type, token_count := 6 }

/-- Witness for C10: with a budget of 5, the priority-1 source alone
meets the budget, and the priority-3 source is never attempted. -/
theorem C10_priority_early_stop_witness :
    ((0 : Nat) < 5 ∧ (1 : Nat) ≤ 1 ∧
      5 ≤ totalTokens (((sortSourcesByPriority scenarioLib.documentation_sources).take 1).filterMap
        scenarioFetch)) ∧
    ((∃ m, attemptedSources scenarioFetch scenarioLib 5
      = (sortSourcesByPriority scenarioLib.documentation_sources).take m) ∧
    (sortSourcesByPriority scenarioLib.documentation_sources).Pairwise
      (fun a b => a.priority ≤ b.priority) ∧
    (∀ p : Nat, (sortSourcesByPriority scenarioLib.documentation_sources).filter
        (fun s => s.priority = p)
      = scenarioLib.documentation_sources.filter (fun s => s.priority = p)) ∧
    (attemptedSources scenarioFetch scenarioLib 5).length ≤ 1) ∧
    ({ url := "u3", type := .community, priority := 3 } : DocumentationSource)
      ∉ attemptedSources scenarioFetch scenarioLib 5 :=
  ⟨⟨by decide, by decide, by decide⟩,
    C10_priority_early_stop scenarioFetch scenarioLib 5 1 (by decide) (by decide) (by decide),
    by decide⟩

end Context7
